import Mathlib

/-!
# Verification of the calcifer RAG/tool-calling plugin core

A shallow embedding of the plugin's core algorithms, translated from the
TypeScript sources, with theorems settling the specification claims.

Conventions:
* JavaScript strings are modelled as `List Char`; JavaScript numbers
  (IEEE doubles) are modelled as real numbers `ℝ`, so the similarity
  algebra is exact rather than floating-point.
* Functions that can `throw` are modelled with `Except String`; the
  error payload models (a fixed prefix of) the thrown message.
* Stateful classes become explicit state-passing functions; external
  collaborator effects (the Obsidian vault API, the network) are
  modelled as explicit operation logs or outcome oracles.
-/

namespace Calcifer

/-! ## Vector math (`VectorStore.ts`: `cosineSimilarity`, `euclideanDistance`)

The source functions first guard on dimension mismatch (throwing), then
accumulate `dotProduct`, `normA`, `normB` in one index loop; with equal
lengths this is the `zipWith`/`map` sum below. -/

/-- A vector as the source uses it: a JS `number[]`. -/
abbrev Vec := List ℝ

/-- `dotProduct` accumulator of the `cosineSimilarity` loop. -/
def dotProduct (a b : Vec) : ℝ := (List.zipWith (fun x y => x * y) a b).sum

/-- The `normA`/`normB` accumulators before `Math.sqrt` is applied:
the sum of squares of one vector. -/
def sumSq (a : Vec) : ℝ := (a.map (fun x => x * x)).sum

/-- The value `cosineSimilarity(a, b)` computes once the dimension guard
has passed: 0 when either norm is 0, else `dot / (|a| * |b|)`. -/
noncomputable def cosSimVal (a b : Vec) : ℝ :=
  if Real.sqrt (sumSq a) = 0 ∨ Real.sqrt (sumSq b) = 0 then 0
  else dotProduct a b / (Real.sqrt (sumSq a) * Real.sqrt (sumSq b))

/-- `cosineSimilarity(a, b)`: throws on dimension mismatch; returns 0 when
either norm is 0; otherwise `dot / (|a| * |b|)`. -/
noncomputable def cosineSimilarity (a b : Vec) : Except String ℝ :=
  if a.length ≠ b.length then .error "Vectors must have the same dimension"
  else .ok (cosSimVal a b)

/-- `euclideanDistance(a, b)`: throws on dimension mismatch; otherwise the
square root of the summed squared differences. -/
noncomputable def euclideanDistance (a b : Vec) : Except String ℝ :=
  if a.length ≠ b.length then .error "Vectors must have the same dimension"
  else .ok (Real.sqrt (((List.zipWith (fun x y => x - y) a b).map (fun d => d * d)).sum))

/-! ## Vector search (`VectorStore.ts`: `search`)

The store's content is the list of records `getAll()` returns, in store
order.  The current `search` keeps a size-bounded running top-K: push and
re-sort ascending while fewer than `topK` results are held, else replace
the minimum (`results[0]`) when a strictly better score arrives, then
re-sort; finally sort descending.  JS `Array.sort` with a score
comparator is modelled by the stable `List.insertionSort`.  The batching
(`BATCH_SIZE = 100` with a UI yield between batches) visits the same
records in the same order, so it does not affect the result and is not
modelled.  When `topK = 0` and a candidate reaches the else branch the
source reads `results[0].score` of an empty array — a TypeError, modelled
as an `Except.error`.  The older related implementation (score all,
sort descending, `slice(0, topK)`) is `searchOld`. -/

/-- A stored vector record. -/
structure VectorDocument where
  id : String
  path : String
  chunkIndex : Nat
  content : String
  embedding : Vec
  mtime : Int
  createdAt : Int

/-- One search result. -/
structure SearchResult where
  document : VectorDocument
  score : ℝ

instance : IsTotal SearchResult (fun a b => a.score ≤ b.score) :=
  ⟨fun a b => le_total a.score b.score⟩

instance : IsTrans SearchResult (fun a b => a.score ≤ b.score) :=
  ⟨fun _ _ _ hab hbc => le_trans hab hbc⟩

noncomputable instance : DecidableRel (fun (a b : SearchResult) => a.score ≤ b.score) :=
  fun _ _ => Real.decidableLE _ _

instance : IsTotal SearchResult (fun a b => b.score ≤ a.score) :=
  ⟨fun a b => le_total b.score a.score⟩

instance : IsTrans SearchResult (fun a b => b.score ≤ a.score) :=
  ⟨fun _ _ _ hab hbc => le_trans hbc hab⟩

noncomputable instance : DecidableRel (fun (a b : SearchResult) => b.score ≤ a.score) :=
  fun _ _ => Real.decidableLE _ _

instance : IsTotal ℝ (fun a b => b ≤ a) := ⟨fun a b => le_total b a⟩

instance : IsTrans ℝ (fun a b => b ≤ a) := ⟨fun _ _ _ hab hbc => le_trans hbc hab⟩

instance : IsAntisymm ℝ (fun a b => b ≤ a) := ⟨fun _ _ hab hba => le_antisymm hba hab⟩

noncomputable instance : DecidableRel (fun (a b : ℝ) => b ≤ a) :=
  fun _ _ => Real.decidableLE _ _

/-- `results.sort((a, b) => a.score - b.score)` (ascending, stable). -/
noncomputable def sortAscByScore (l : List SearchResult) : List SearchResult :=
  List.insertionSort (fun a b => a.score ≤ b.score) l

/-- `results.sort((a, b) => b.score - a.score)` (descending, stable). -/
noncomputable def sortDescByScore (l : List SearchResult) : List SearchResult :=
  List.insertionSort (fun a b => b.score ≤ a.score) l

/-- Descending sort of a plain score list (used to state the brute-force
reference). -/
noncomputable def sortDescScores (l : List ℝ) : List ℝ :=
  List.insertionSort (fun a b : ℝ => b ≤ a) l

/-- The document loop of the current `search`. -/
noncomputable def searchLoop (q : Vec) (topK : Nat) (minScore : ℝ) :
    List VectorDocument → List SearchResult → Except String (List SearchResult)
  | [], results => .ok results
  | d :: ds, results =>
    match cosineSimilarity q d.embedding with
    | .error e => .error e
    | .ok s =>
      if minScore ≤ s then
        if results.length < topK then
          searchLoop q topK minScore ds (sortAscByScore (results ++ [⟨d, s⟩]))
        else
          match results with
          | [] => .error "TypeError: results[0] is undefined"
          | r0 :: rest =>
            if r0.score < s then searchLoop q topK minScore ds (sortAscByScore (⟨d, s⟩ :: rest))
            else searchLoop q topK minScore ds results
      else searchLoop q topK minScore ds results

/-- `VectorStore.search(queryEmbedding, topK, minScore)` over store content
`docs`. -/
noncomputable def search (docs : List VectorDocument) (q : Vec) (topK : Nat) (minScore : ℝ) :
    Except String (List SearchResult) :=
  (searchLoop q topK minScore docs []).map sortDescByScore

/-- The score-then-filter pass of the older `search` implementation. -/
noncomputable def scoreDocs (q : Vec) (minScore : ℝ) :
    List VectorDocument → Except String (List SearchResult)
  | [] => .ok []
  | d :: ds =>
    match cosineSimilarity q d.embedding with
    | .error e => .error e
    | .ok s =>
      match scoreDocs q minScore ds with
      | .error e => .error e
      | .ok rest => .ok (if minScore ≤ s then ⟨d, s⟩ :: rest else rest)

/-- The older related `search`: score everything, sort descending, take the
first `topK`. -/
noncomputable def searchOld (docs : List VectorDocument) (q : Vec) (topK : Nat)
    (minScore : ℝ) : Except String (List SearchResult) :=
  (scoreDocs q minScore docs).map (fun results => (sortDescByScore results).take topK)

/-- The brute-force reference: every stored record's recomputed cosine
score, kept when at least `minScore`, in store order. -/
noncomputable def candidateScores (docs : List VectorDocument) (q : Vec) (minScore : ℝ) :
    List ℝ :=
  (docs.map (fun d => cosSimVal q d.embedding)).filter (fun s => minScore ≤ s)

/-! ## Provider failover (`ProviderManager.ts`)

`ProviderManager` keeps the endpoint configs from settings, a `Map` of
provider instances keyed by endpoint id (built from the enabled configs,
last `set` wins), and a status `Map`.  `chat` walks the enabled endpoints
sorted by ascending priority (JS `Array.sort` is stable, modelled by
`List.insertionSort`), returns the first success, marks each failing
endpoint unhealthy, and throws an aggregated error naming the last
failure once all have failed.  A provider's network behaviour is an
oracle `bz` from endpoint id to a chat outcome. -/

/-- One entry of `settings.endpoints`. -/
structure EndpointConfig where
  id : String
  name : String
  enabled : Bool
  priority : Int
deriving DecidableEq

/-- A provider chat response (only the payload identity matters here). -/
structure ChatResponse where
  content : String
deriving DecidableEq

/-- One entry of the `providerStatus` map. -/
structure ProviderStatus where
  id : String
  name : String
  healthy : Bool
  error : Option String
deriving DecidableEq

/-- The settings slice `ProviderManager` reads. -/
structure ProviderSettings where
  endpoints : List EndpointConfig
deriving DecidableEq

/-- The provider `Map` built by `initializeProviders`: enabled configs keyed
by id, last `Map.set` winning, so lookup finds the last enabled config with
the given id. -/
def providerFor (s : ProviderSettings) (id : String) : Option EndpointConfig :=
  (s.endpoints.filter (fun e => e.enabled)).reverse.find? (fun c => c.id = id)

/-- `getSortedProviders`: enabled endpoints sorted ascending by priority
(stably), then mapped through the provider map and filtered for presence. -/
def getSortedProviders (s : ProviderSettings) : List EndpointConfig :=
  ((s.endpoints.filter (fun e => e.enabled)).insertionSort
      (fun a b => a.priority ≤ b.priority)).filterMap (fun c => providerFor s c.id)

/-- The `providerStatus` map after `initializeProviders`: every enabled
endpoint is assumed healthy until checked. -/
def initStatuses (s : ProviderSettings) : List ProviderStatus :=
  (s.endpoints.filter (fun e => e.enabled)).map (fun c => ⟨c.id, c.name, true, none⟩)

/-- The status mutation in `chat`'s catch branch: mark the entry for `id`
unhealthy and record the error message. -/
def updateStatus (sts : List ProviderStatus) (id : String) (msg : String) :
    List ProviderStatus :=
  sts.map (fun st =>
    if st.id = id then { st with healthy := false, error := some msg } else st)

/-- The message of a failed outcome (`""` is never used on the paths where
this matters). -/
def failMsg (e : Except String ChatResponse) : String :=
  match e with
  | .error m => m
  | .ok _ => ""

/-- Iterated `updateStatus` for a list of (id, message) failures. -/
def applyFailures (sts : List ProviderStatus) : List (String × String) → List ProviderStatus
  | [] => sts
  | (id, m) :: rest => applyFailures (updateStatus sts id m) rest

/-- First status entry for an id, as `providerStatus.get(id)`. -/
def statusFor (sts : List ProviderStatus) (id : String) : Option ProviderStatus :=
  sts.find? (fun st => st.id = id)

/-- The provider loop of `ProviderManager.chat`: try each provider in order,
return the first success, record failures in the status map and remember the
last error; after the loop throw the aggregated error. -/
def chatLoop (bz : String → Except String ChatResponse) :
    List EndpointConfig → List ProviderStatus → Option String → List String →
    Except String ChatResponse × List ProviderStatus × List String
  | [], sts, lastErr, attempted =>
    (.error ("All providers failed. Last error: " ++ lastErr.getD "undefined"), sts, attempted)
  | p :: rest, sts, _lastErr, attempted =>
    match bz p.id with
    | .ok r => (.ok r, sts, attempted ++ [p.id])
    | .error m => chatLoop bz rest (updateStatus sts p.id m) (some m) (attempted ++ [p.id])

/-- `ProviderManager.chat`, returning the outcome, the final status map and
the ordered list of endpoint ids actually attempted. -/
def chat (s : ProviderSettings) (bz : String → Except String ChatResponse) :
    Except String ChatResponse × List ProviderStatus × List String :=
  let providers := getSortedProviders s
  if providers.length = 0 then (.error "No providers configured", initStatuses s, [])
  else chatLoop bz providers (initStatuses s) none []

/-- Whether an outcome is a thrown error. -/
def isErrorB (e : Except String ChatResponse) : Bool :=
  match e with
  | .error _ => true
  | .ok _ => false

instance : DecidableEq (Except String ChatResponse) := fun a b =>
  match a, b with
  | .ok x, .ok y =>
    if h : x = y then isTrue (by rw [h]) else isFalse (fun hh => h (by injection hh))
  | .error x, .error y =>
    if h : x = y then isTrue (by rw [h]) else isFalse (fun hh => h (by injection hh))
  | .ok _, .error _ => isFalse (fun hh => Except.noConfusion hh)
  | .error _, .ok _ => isFalse (fun hh => Except.noConfusion hh)

instance : IsTotal EndpointConfig (fun a b => a.priority ≤ b.priority) :=
  ⟨fun a b => le_total a.priority b.priority⟩

instance : IsTrans EndpointConfig (fun a b => a.priority ≤ b.priority) :=
  ⟨fun _ _ _ hab hbc => le_trans hab hbc⟩

/-! ## Indexing circuit breaker (`EmbeddingManager.ts`)

The mutable fields of `EmbeddingManager` relevant to the queue and the
circuit breaker become an explicit state record.  The vault and the
network are oracles: `excl`/`hasProvider`/`isMobile` stand for
`shouldExclude`, `hasAvailableProvider` and `Platform.isMobile`, and
`outcome p` is what `this.app.vault.getFileByPath(p)` plus
`indexSingleFile(file)` does for path `p` (missing file, success, or a
throw with a message).  `processIndexQueue` returns the new state and the
ordered list of paths for which `indexSingleFile` (a network call) was
actually attempted.  The debounce timer only affects *when*
`processIndexQueue` runs, not what it does, so it is not modelled. -/

/-- The settings slice read by `queueFile`. -/
structure EmbedSettings where
  enableEmbedding : Bool
  enableOnMobile : Bool
deriving DecidableEq

/-- The queue / circuit-breaker fields of `EmbeddingManager`. -/
structure EmbedState where
  indexQueue : List String
  isIndexing : Bool
  consecutiveErrors : Nat
  circuitBroken : Bool
deriving DecidableEq

/-- `this.maxConsecutiveErrors`. -/
def maxConsecutiveErrors : Nat := 3

/-- What one queued path does when processed. -/
inductive FileOutcome where
  | missing
  | success
  | failure (msg : String)

/-- `connectionErrors` fingerprint list from `isConnectionError`. -/
def connectionErrors : List String :=
  ["ERR_CERT_AUTHORITY_INVALID", "ERR_CERT_COMMON_NAME_INVALID", "ERR_CONNECTION_REFUSED",
   "ERR_CONNECTION_RESET", "ERR_CONNECTION_CLOSED", "ERR_NAME_NOT_RESOLVED", "ERR_NETWORK",
   "ERR_INTERNET_DISCONNECTED", "ECONNREFUSED", "ENOTFOUND", "ETIMEDOUT", "fetch failed",
   "Connection failed", "status 404", "status 500", "All providers failed"]

/-- JS `haystack.includes(needle)` on our character-list strings. -/
def jsIncludes (hay needle : List Char) : Bool := decide (needle <:+: hay)

/-- `isConnectionError`: does any fingerprint occur in the message? -/
def isConnectionError (message : String) : Bool :=
  connectionErrors.any (fun err => jsIncludes message.toList err.toList)

/-- `queueFile`: guard chain, then `Set.add` (append if not present).
(The call only schedules the debounced processor; it performs no network
work itself.) -/
def queueFile (settings : EmbedSettings) (excl : String → Bool) (hasProvider isMobile : Bool)
    (st : EmbedState) (path : String) : EmbedState :=
  if ¬settings.enableEmbedding then st
  else if excl path then st
  else if st.circuitBroken then st
  else if ¬hasProvider then st
  else if isMobile ∧ ¬settings.enableOnMobile then st
  else { st with indexQueue :=
    if path ∈ st.indexQueue then st.indexQueue else st.indexQueue ++ [path] }

/-- The `for` loop of `processIndexQueue`: checks the breaker at the top of
every iteration, skips missing files, resets the error counter on success,
counts connection-classified failures and trips the breaker (stopping
immediately) at the threshold. -/
def processLoop (outcome : String → FileOutcome) :
    List String → EmbedState → List String → EmbedState × List String
  | [], st, att => (st, att)
  | p :: rest, st, att =>
    if st.circuitBroken then (st, att)
    else
      match outcome p with
      | .missing => processLoop outcome rest st att
      | .success => processLoop outcome rest { st with consecutiveErrors := 0 } (att ++ [p])
      | .failure msg =>
        if isConnectionError msg then
          if st.consecutiveErrors + 1 ≥ maxConsecutiveErrors then
            ({ st with consecutiveErrors := st.consecutiveErrors + 1, circuitBroken := true },
              att ++ [p])
          else
            processLoop outcome rest
              { st with consecutiveErrors := st.consecutiveErrors + 1 } (att ++ [p])
        else processLoop outcome rest st (att ++ [p])

/-- `processIndexQueue`: early-out when already indexing or the queue is
empty; when the circuit is open, clear the queue and return without any
attempt; otherwise drain the queue through `processLoop` (the `finally`
resets `isIndexing`). -/
def processIndexQueue (outcome : String → FileOutcome) (st : EmbedState) :
    EmbedState × List String :=
  if st.isIndexing ∨ st.indexQueue = [] then (st, [])
  else if st.circuitBroken then ({ st with indexQueue := [] }, [])
  else
    let paths := st.indexQueue
    let res := processLoop outcome paths { st with isIndexing := true, indexQueue := [] } []
    ({ res.1 with isIndexing := false }, res.2)

/-- `resetCircuitBreaker`. -/
def resetCircuitBreaker (st : EmbedState) : EmbedState :=
  { st with circuitBroken := false, consecutiveErrors := 0 }

/-- The circuit-breaker reset performed by `updateSettings`. -/
def updateSettingsReset (st : EmbedState) : EmbedState :=
  { st with circuitBroken := false, consecutiveErrors := 0 }

/-! ## Chunker (`Chunker.ts`)

JS strings become `List Char`.  Each regex `replace` of `cleanText` is a
left-to-right scan-and-replace function; `lastIndexOf` returns `-1 : ℤ`
when absent as in JS.  The `while` loop of `chunkSection` is embedded with
explicit fuel; claim C5 proves the fuel bound `length + 1` always
suffices when `overlap < chunkSize` and that the in-source infinite-loop
guard never fires. -/

/-- A JS string. -/
abbrev JStr := List Char

/-- The backtick character (written by code so that fence handling below
stays readable). -/
def backtick : Char := Char.ofNat 96

/-- The JS `\s` class (the ASCII members plus NBSP and the BOM; the
remaining exotic Unicode space members never occur in this development). -/
def isJsWhitespace (c : Char) : Bool :=
  decide (c = ' ' ∨ c = '\t' ∨ c = '\n' ∨ c = '\r' ∨ c = Char.ofNat 11 ∨ c = Char.ofNat 12
    ∨ c = Char.ofNat 160 ∨ c = Char.ofNat 65279)

/-- `String.prototype.trim()`. -/
def jsTrim (s : JStr) : JStr :=
  (((s.dropWhile isJsWhitespace).reverse.dropWhile isJsWhitespace)).reverse

/-- `String.prototype.slice(start, stop)` for in-range indices. -/
def jsSlice (s : JStr) (start stop : ℕ) : JStr := (s.take stop).drop start

/-- `String.prototype.lastIndexOf(pat)`, `-1` when absent. -/
def jsLastIndexOf (s pat : JStr) : ℤ :=
  match ((List.range (s.length + 1)).filter (fun i => pat.isPrefixOf (s.drop i))).max? with
  | some i => (i : ℤ)
  | none => -1

/-- `---` (frontmatter delimiter). -/
def dashes : JStr := ['-', '-', '-']

/-- Least offset at which `---` occurs, if any. -/
def findDashClose : JStr → Option ℕ
  | [] => none
  | c :: t => if dashes.isPrefixOf (c :: t) then some 0 else (findDashClose t).map (· + 1)

/-- `replace(/^---[\s\S]*?---\n?/, '')`: strip a leading frontmatter
block (lazy close, optional trailing newline). -/
def removeFrontmatter (s : JStr) : JStr :=
  if dashes.isPrefixOf s then
    match findDashClose (s.drop 3) with
    | some k =>
      let rest := s.drop (3 + k + 3)
      match rest with
      | '\n' :: rest2 => rest2
      | _ => rest
    | none => s
  else s

/-- ```` ``` ```` (code-fence delimiter). -/
def fence : JStr := [backtick, backtick, backtick]

/-- Least offset at which a closing fence occurs, if any. -/
def findFenceClose : JStr → Option ℕ
  | [] => none
  | c :: t => if fence.isPrefixOf (c :: t) then some 0 else (findFenceClose t).map (· + 1)

/-- The fixed replacement text for a code block. -/
def codeBlockText : JStr := "[code block]".toList

/-! Each global `replace` below is a left-to-right scan written with
explicit fuel so that it is structural (and hence kernel-computable);
every recursive call shortens the scanned list by at least one character,
so fuel = the list's length always suffices, and the wrappers pass exactly
that. -/

/-- `replace(/```[\s\S]*?```/g, '[code block]')` (scan body). -/
def replaceFencesGo : Nat → JStr → JStr
  | 0, s => s
  | _ + 1, [] => []
  | fuel + 1, c :: rest =>
    if fence.isPrefixOf (c :: rest) then
      match findFenceClose ((c :: rest).drop 3) with
      | some k => codeBlockText ++ replaceFencesGo fuel ((c :: rest).drop (3 + k + 3))
      | none => c :: rest
    else c :: replaceFencesGo fuel rest

/-- `replace(/```[\s\S]*?```/g, '[code block]')`. -/
def replaceFences (s : JStr) : JStr := replaceFencesGo s.length s

/-- ``replace(/`[^`]+`/g, m => m.slice(1, -1))`` (scan body). -/
def replaceInlineCodeGo : Nat → JStr → JStr
  | 0, s => s
  | _ + 1, [] => []
  | fuel + 1, c :: rest =>
    if c = backtick then
      let inner := rest.takeWhile (fun x => x ≠ backtick)
      if 1 ≤ inner.length ∧ (rest.drop inner.length).head? = some backtick then
        inner ++ replaceInlineCodeGo fuel (rest.drop (inner.length + 1))
      else c :: replaceInlineCodeGo fuel rest
    else c :: replaceInlineCodeGo fuel rest

/-- ``replace(/`[^`]+`/g, m => m.slice(1, -1))``: unwrap inline code. -/
def replaceInlineCode (s : JStr) : JStr := replaceInlineCodeGo s.length s

/-- `replace(/!\[([^\]]*)\]\([^)]+\)/g, '$1')` (scan body). -/
def replaceImagesGo : Nat → JStr → JStr
  | 0, s => s
  | _ + 1, [] => []
  | fuel + 1, '!' :: '[' :: rest =>
    let alt := rest.takeWhile (fun x => x ≠ ']')
    let after := rest.drop alt.length
    if after.head? = some ']' ∧ (after.drop 1).head? = some '(' then
      let rest2 := after.drop 2
      let url := rest2.takeWhile (fun x => x ≠ ')')
      if 1 ≤ url.length ∧ (rest2.drop url.length).head? = some ')' then
        alt ++ replaceImagesGo fuel (rest2.drop (url.length + 1))
      else '!' :: replaceImagesGo fuel ('[' :: rest)
    else '!' :: replaceImagesGo fuel ('[' :: rest)
  | fuel + 1, c :: rest => c :: replaceImagesGo fuel rest

/-- `replace(/!\[([^\]]*)\]\([^)]+\)/g, '$1')`: image syntax to alt text. -/
def replaceImages (s : JStr) : JStr := replaceImagesGo s.length s

/-- `replace(/\[([^\]]+)\]\([^)]+\)/g, '$1')` (scan body). -/
def replaceLinksGo : Nat → JStr → JStr
  | 0, s => s
  | _ + 1, [] => []
  | fuel + 1, '[' :: rest =>
    let txt := rest.takeWhile (fun x => x ≠ ']')
    let after := rest.drop txt.length
    if 1 ≤ txt.length ∧ after.head? = some ']' ∧ (after.drop 1).head? = some '(' then
      let rest2 := after.drop 2
      let url := rest2.takeWhile (fun x => x ≠ ')')
      if 1 ≤ url.length ∧ (rest2.drop url.length).head? = some ')' then
        txt ++ replaceLinksGo fuel (rest2.drop (url.length + 1))
      else '[' :: replaceLinksGo fuel rest
    else '[' :: replaceLinksGo fuel rest
  | fuel + 1, c :: rest => c :: replaceLinksGo fuel rest

/-- `replace(/\[([^\]]+)\]\([^)]+\)/g, '$1')`: link syntax to link text. -/
def replaceLinks (s : JStr) : JStr := replaceLinksGo s.length s

/-- `replace(/<[^>]+>/g, '')` (scan body). -/
def replaceHtmlTagsGo : Nat → JStr → JStr
  | 0, s => s
  | _ + 1, [] => []
  | fuel + 1, '<' :: rest =>
    let inner := rest.takeWhile (fun x => x ≠ '>')
    if 1 ≤ inner.length ∧ (rest.drop inner.length).head? = some '>' then
      replaceHtmlTagsGo fuel (rest.drop (inner.length + 1))
    else '<' :: replaceHtmlTagsGo fuel rest
  | fuel + 1, c :: rest => c :: replaceHtmlTagsGo fuel rest

/-- `replace(/<[^>]+>/g, '')`: drop HTML tags. -/
def replaceHtmlTags (s : JStr) : JStr := replaceHtmlTagsGo s.length s

/-- `replace(/\s+/g, ' ')` (scan body). -/
def collapseWhitespaceGo : Nat → JStr → JStr
  | 0, s => s
  | _ + 1, [] => []
  | fuel + 1, c :: rest =>
    if isJsWhitespace c then ' ' :: collapseWhitespaceGo fuel (rest.dropWhile isJsWhitespace)
    else c :: collapseWhitespaceGo fuel rest

/-- `replace(/\s+/g, ' ')`: collapse whitespace runs to single spaces. -/
def collapseWhitespace (s : JStr) : JStr := collapseWhitespaceGo s.length s

/-- `replace(/\n{3,}/g, '\n\n')` (scan body). -/
def collapseNewlinesGo : Nat → JStr → JStr
  | 0, s => s
  | _ + 1, [] => []
  | fuel + 1, c :: rest =>
    if c = '\n' then
      let run := rest.takeWhile (fun x => x = '\n')
      if 3 ≤ run.length + 1 then '\n' :: '\n' :: collapseNewlinesGo fuel (rest.drop run.length)
      else (c :: run) ++ collapseNewlinesGo fuel (rest.drop run.length)
    else c :: collapseNewlinesGo fuel rest

/-- `replace(/\n{3,}/g, '\n\n')`. -/
def collapseNewlines (s : JStr) : JStr := collapseNewlinesGo s.length s

/-- `cleanText`: the full normalisation pipeline, in source order. -/
def cleanText (s : JStr) : JStr :=
  jsTrim (collapseNewlines (collapseWhitespace (replaceHtmlTags (replaceLinks
    (replaceImages (replaceInlineCode (replaceFences (removeFrontmatter s))))))))

/-- `chunkSection`'s per-chunk record (a `Chunk` before the index is
assigned). -/
structure PreChunk where
  content : JStr
  startPos : Nat
  endPos : Nat
deriving DecidableEq

/-- `findBreakPoint(text, start, maxEnd)`: paragraph break, then the best
sentence break, then newline, then space, each only when its index in the
search range is `> 0`; otherwise `maxEnd`. -/
def findBreakPoint (text : JStr) (start maxEnd : Nat) : Nat :=
  let searchRange := jsSlice text start maxEnd
  let paragraphBreak := jsLastIndexOf searchRange ['\n', '\n']
  if 0 < paragraphBreak then start + paragraphBreak.toNat + 2
  else
    let sentenceBreaks : List JStr :=
      [['.', ' '], ['!', ' '], ['?', ' '], ['.', '\n'], ['!', '\n'], ['?', '\n']]
    let lastSentenceBreak :=
      sentenceBreaks.foldl (fun acc bs => max acc (jsLastIndexOf searchRange bs)) (-1)
    if 0 < lastSentenceBreak then start + lastSentenceBreak.toNat + 2
    else
      let newlineBreak := jsLastIndexOf searchRange ['\n']
      if 0 < newlineBreak then start + newlineBreak.toNat + 1
      else
        let spaceBreak := jsLastIndexOf searchRange [' ']
        if 0 < spaceBreak then start + spaceBreak.toNat + 1
        else maxEnd

/-- The `endPos` computed by one iteration of `chunkSection`'s loop. -/
def computeEndPos (text : JStr) (chunkSize minChunkSize startPos : Nat) : Nat :=
  let endPos := min (startPos + chunkSize) text.length
  if endPos < text.length then
    let breakPoint := findBreakPoint text startPos endPos
    if startPos + minChunkSize < breakPoint then breakPoint else endPos
  else endPos

/-- The next `startPos`: `endPos - overlap`, falling back to the raw chunk
end `endPos` whenever the overlap step would not advance past the current
start. -/
def nextStart (startPos endPos overlap : Nat) : Nat :=
  if endPos - overlap ≤ startPos then endPos else endPos - overlap

/-- One iteration's update of the accumulated chunk list: push the (trimmed)
chunk when large enough or first, otherwise merge it into the previous
chunk. -/
def pushChunk (text : JStr) (minChunkSize startPos endPos : Nat)
    (chunks : List PreChunk) : List PreChunk :=
  let chunk := jsTrim (jsSlice text startPos endPos)
  if minChunkSize ≤ chunk.length ∨ chunks.length = 0 then
    chunks ++ [⟨chunk, startPos, endPos⟩]
  else
    match chunks.getLast? with
    | some prev =>
      chunks.dropLast ++ [⟨jsTrim (jsSlice text prev.startPos endPos), prev.startPos, endPos⟩]
    | none => chunks

/-- The `while` loop of `chunkSection`, with explicit fuel.  Returns `none`
when the fuel runs out; the `Bool` records whether the in-source
infinite-loop guard (`startPos === lastStartPos`) fired. -/
def chunkSectionLoop (text : JStr) (chunkSize overlap minChunkSize : Nat) :
    Nat → Nat → Option Nat → List PreChunk → Option (List PreChunk × Bool)
  | 0, _, _, _ => none
  | fuel + 1, startPos, lastStartPos, chunks =>
    if startPos < text.length then
      if lastStartPos = some startPos then some (chunks, true)
      else
        let endPos := computeEndPos text chunkSize minChunkSize startPos
        let chunks' := pushChunk text minChunkSize startPos endPos chunks
        if text.length ≤ endPos then some (chunks', false)
        else
          chunkSectionLoop text chunkSize overlap minChunkSize fuel
            (nextStart startPos endPos overlap) (some startPos) chunks'
    else some (chunks, false)

/-- `chunkSection(text, chunkSize, overlap, minChunkSize)`.  The fuel
`2 * length + 2` always suffices (`startPos` never decreases and the guard
breaks a stalled loop after one extra iteration); claim C5 shows that for
`overlap < chunkSize` the loop already finishes within `length + 1`
iterations with the guard never firing. -/
def chunkSection (text : JStr) (chunkSize overlap minChunkSize : Nat) : List PreChunk :=
  if text.length ≤ chunkSize then [⟨text, 0, text.length⟩]
  else
    match chunkSectionLoop text chunkSize overlap minChunkSize
        (2 * text.length + 2) 0 none [] with
    | some (chunks, _) => chunks
    | none => []

/-- One section produced by `splitByHeaders`. -/
structure MdSection where
  header : JStr
  content : JStr
  startPos : Nat
deriving DecidableEq

/-- A line terminator for the purposes of JS multiline `^`/`$` and `.`. -/
def isLineTerminator (c : Char) : Bool := decide (c = '\n' ∨ c = '\r')

/-- Whether position `i` is a line start (JS multiline `^`). -/
def lineStartAt (s : JStr) (i : Nat) : Bool :=
  i = 0 ∨ (s.drop (i - 1)).head?.any isLineTerminator

/-- Length of the match of `/^(#{1,6})\s+(.+)$/m` starting at position `i`
(which the caller checks to be a line start), if it matches there: one to
six `#`s, at least one `\s`, then at least one non-line-terminator up to
the end of that line (`\s+` backtracks until `.` can start). -/
def headerMatchAt (s : JStr) (i : Nat) : Option Nat :=
  let t := s.drop i
  let hashes := (t.takeWhile (fun c => c = '#')).length
  if 1 ≤ hashes ∧ hashes ≤ 6 then
    let afterHash := t.drop hashes
    let ws := (afterHash.takeWhile isJsWhitespace).length
    match (((List.range ws).map (· + 1)).filter (fun j =>
        (afterHash.drop j).head?.any (fun c => ¬ isLineTerminator c))).max? with
    | some j =>
      some (hashes + j + ((afterHash.drop j).takeWhile (fun c => ¬ isLineTerminator c)).length)
    | none => none
  else none

/-- The next header match of `headerRegex.exec` at or after `from`:
the least line-start position where the header pattern matches, with the
match length. -/
def findNextHeader (s : JStr) (start : Nat) : Option (Nat × Nat) :=
  match (List.range s.length).find? (fun i =>
      decide (start ≤ i) && lineStartAt s i && (headerMatchAt s i).isSome) with
  | some i => (headerMatchAt s i).map (fun ln => (i, ln))
  | none => none

/-- The `while (match = headerRegex.exec(text))` loop of `splitByHeaders`:
emit the (trimmed, nonempty) text between matches under the previous
header, then the final tail section. -/
def splitLoop (s : JStr) : Nat → Nat → JStr → List MdSection → List MdSection
  | 0, _, _, secs => secs
  | fuel + 1, lastEnd, lastHeader, secs =>
    match findNextHeader s lastEnd with
    | some (i, ln) =>
      let secs' :=
        if lastEnd < i then
          let content := jsTrim (jsSlice s lastEnd i)
          if 0 < content.length then secs ++ [⟨lastHeader, content, lastEnd⟩] else secs
        else secs
      splitLoop s fuel (i + ln) (jsSlice s i (i + ln)) secs'
    | none =>
      if lastEnd < s.length then
        let content := jsTrim (jsSlice s lastEnd s.length)
        if 0 < content.length then secs ++ [⟨lastHeader, content, lastEnd⟩] else secs
      else secs

/-- `splitByHeaders`. -/
def splitByHeaders (s : JStr) : List MdSection :=
  let secs := splitLoop s (s.length + 1) 0 [] []
  if secs.length = 0 then [⟨[], s, 0⟩] else secs

/-- A chunk as returned by `chunkText`. -/
structure Chunk where
  content : JStr
  startPos : Nat
  endPos : Nat
  index : Nat
deriving DecidableEq

/-- `chunkText(text, options)` with all options explicit (the source
defaults are `chunkSize = 1000`, `overlap = 200`, `respectHeaders = true`,
`minChunkSize = 100`). -/
def chunkText (text : JStr) (chunkSize overlap minChunkSize : Nat)
    (respectHeaders : Bool) : List Chunk :=
  if text.length = 0 ∨ (jsTrim text).length = 0 then []
  else
    let cleanedText := cleanText text
    if cleanedText.length ≤ chunkSize then
      [⟨cleanedText, 0, cleanedText.length, 0⟩]
    else if respectHeaders then
      ((splitByHeaders cleanedText).foldl (fun (acc : List Chunk × Nat) sec =>
        (chunkSection sec.content chunkSize overlap minChunkSize).foldl
          (fun (acc2 : List Chunk × Nat) ch =>
            (acc2.1 ++ [⟨(if 0 < sec.header.length
                then sec.header ++ ['\n', '\n'] ++ ch.content else ch.content),
              sec.startPos + ch.startPos, sec.startPos + ch.endPos, acc2.2⟩],
              acc2.2 + 1)) acc) ([], 0)).1
    else
      ((chunkSection cleanedText chunkSize overlap minChunkSize).foldl
        (fun (acc : List Chunk × Nat) pc =>
          (acc.1 ++ [⟨pc.content, pc.startPos, pc.endPos, acc.2⟩], acc.2 + 1)) ([], 0)).1

/-! ## Tool execution (`ToolExecutor.ts`)

The Obsidian vault is the backing store: a list of (markdown) files with
path, content and frontmatter tags, plus a list of folder paths.
`executeTool` returns the tool result, the updated vault, and the ordered
list of mutating store operations it performed — an empty list means the
store was never touched.  Obsidian's `normalizePath` (an external helper:
backslashes to slashes, slash runs collapsed, surrounding slashes
stripped) is modelled as `obsidianNormalizePath`.  Handler throws
(`sanitizePath`, `getStringArg`) happen before any store operation, and
`execute`'s catch converts them into failure results. -/

/-- Collapse runs of `/` to a single `/` (the `replace(/\/+/g, '/')` step
and part of `normalizePath`). -/
def collapseSlashes : JStr → JStr
  | [] => []
  | [c] => [c]
  | c :: d :: rest =>
    if c = '/' ∧ d = '/' then collapseSlashes (d :: rest)
    else c :: collapseSlashes (d :: rest)

/-- Strip leading and trailing slash runs (`replace(/^\/+|\/+$/g, '')`). -/
def stripOuterSlashes (p : JStr) : JStr :=
  ((p.dropWhile (fun c => c = '/')).reverse.dropWhile (fun c => c = '/')).reverse

/-- The characters removed by `replace(/[<>:"|?*]/g, '')`. -/
def isDangerousChar (c : Char) : Bool :=
  decide (c = '<' ∨ c = '>' ∨ c = ':' ∨ c = '"' ∨ c = '|' ∨ c = '?' ∨ c = '*')

/-- Obsidian's `normalizePath` (external collaborator): backslashes become
slashes, slash runs collapse, surrounding slashes are stripped. -/
def obsidianNormalizePath (p : JStr) : JStr :=
  stripOuterSlashes (collapseSlashes (p.map (fun c => if c = '\\' then '/' else c)))

/-- `ToolExecutor.sanitizePath`: trim, strip surrounding slashes, drop
dangerous characters, collapse slash runs, normalize; then reject any
result containing `..` or starting with a path separator. -/
def sanitizePath (pathInput : JStr) : Except JStr JStr :=
  let p1 := jsTrim pathInput
  let p2 := stripOuterSlashes p1
  let p3 := p2.filter (fun c => ¬ isDangerousChar c)
  let p4 := collapseSlashes p3
  let normalized := obsidianNormalizePath p4
  if jsIncludes normalized ['.', '.'] ∨ normalized.head? = some '/'
      ∨ normalized.head? = some '\\' then
    .error ("Invalid path: \"".toList ++ pathInput
      ++ "\" attempts to access files outside the vault".toList)
  else .ok normalized

/-- A vault file (all vault files here are markdown notes; `tags` models
the frontmatter `tags` entry that the tag tools read and write). -/
structure VaultFile where
  path : JStr
  content : JStr
  tags : List JStr
deriving DecidableEq

/-- The backing store. -/
structure Vault where
  files : List VaultFile
  folders : List JStr
deriving DecidableEq

/-- `vault.getAbstractFileByPath` result. -/
inductive AbstractFile where
  | file (f : VaultFile)
  | folder (path : JStr)
deriving DecidableEq

def getAbstractFileByPath (v : Vault) (p : JStr) : Option AbstractFile :=
  match v.files.find? (fun f => f.path = p) with
  | some f => some (.file f)
  | none => if p ∈ v.folders then some (.folder p) else none

/-- The path of an abstract file. -/
def AbstractFile.path : AbstractFile → JStr
  | .file f => f.path
  | .folder p => p

/-- The final path segment (Obsidian `file.name`: basename plus
extension). -/
def afterLastSlash (p : JStr) : JStr :=
  (p.reverse.takeWhile (fun c => c ≠ '/')).reverse

/-- Case-sensitive `endsWith('.md')`. -/
def endsWithMd (p : JStr) : Bool :=
  ['d', 'm', '.'].isPrefixOf p.reverse

/-- Case-insensitive `replace(/\.md$/i, '')`. -/
def stripMdSuffixCI (p : JStr) : JStr :=
  if ['d', 'm', '.'].isPrefixOf (p.reverse.map Char.toLower) then p.take (p.length - 3) else p

/-- Obsidian `file.basename`: the file name without its `.md` extension. -/
def baseNameOf (p : JStr) : JStr :=
  let n := afterLastSlash p
  if endsWithMd n then n.take (n.length - 3) else n

/-- `toLowerCase()`. -/
def jsToLower (s : JStr) : JStr := s.map Char.toLower

/-- The path `findFile` works with: trimmed, one leading slash removed. -/
def findFilePath (pathInput : JStr) : JStr :=
  let path0 := jsTrim pathInput
  if path0.head? = some '/' then path0.drop 1 else path0

/-- `ToolExecutor.findFile`: exact path, then with `.md` appended, then
case-insensitive basename match, then partial path match. -/
def findFile (v : Vault) (pathInput : JStr) : Option VaultFile :=
  let path := findFilePath pathInput
  match getAbstractFileByPath v (obsidianNormalizePath path) with
  | some (.file f) => some f
  | _ =>
    match (if endsWithMd path then none
      else match getAbstractFileByPath v (obsidianNormalizePath (path ++ ".md".toList)) with
        | some (.file f) => some f
        | _ => none) with
    | some f => some f
    | none =>
      let searchName := jsToLower (stripMdSuffixCI path)
      match v.files.find? (fun f => jsToLower (baseNameOf f.path) = searchName) with
      | some f => some f
      | none =>
        v.files.find? (fun f =>
          jsIncludes (jsToLower f.path) searchName
          ∨ jsToLower f.path = jsToLower path
          ∨ jsToLower f.path = jsToLower (path ++ ".md".toList))

/-- A JSON-ish argument value as delivered to a tool handler (string,
boolean, or `null`; absent keys are simply missing from the list). -/
inductive JsArg where
  | str (s : JStr)
  | bool (b : Bool)
  | null
deriving DecidableEq

/-- `toolCall.arguments` (a JS object): association list, first key wins. -/
def Args := List (JStr × JsArg)

def lookupArg (args : Args) (k : JStr) : Option JsArg :=
  (args.find? (fun p => p.1 = k)).map (fun p => p.2)

/-- `typeof value` for the error message of `getStringArg`. -/
def jsTypeName : JsArg → JStr
  | .str _ => "string".toList
  | .bool _ => "boolean".toList
  | .null => "object".toList

/-- `ToolExecutor.getStringArg`: absent or `null` gives the default, a
string passes through, anything else throws. -/
def getStringArg (args : Args) (k : JStr) (defaultValue : JStr) : Except JStr JStr :=
  match lookupArg args k with
  | none => .ok defaultValue
  | some .null => .ok defaultValue
  | some (.str s) => .ok s
  | some v =>
    .error ("Argument \"".toList ++ k ++ "\" must be a string, got ".toList ++ jsTypeName v)

/-- `args.key === true`. -/
def argIsTrue (args : Args) (k : JStr) : Bool :=
  decide (lookupArg args k = some (.bool true))

/-- JS truthiness of an argument (`args.newName ? ... : undefined`):
a nonempty string or `true` is truthy. -/
def argTruthy : Option JsArg → Bool
  | some (.str s) => decide (s ≠ [])
  | some (.bool b) => b
  | _ => false

/-- The mutating Obsidian API calls a handler can make, in order. -/
inductive StoreOp where
  | createFolder (path : JStr)
  | createFile (path content : JStr)
  | processFile (path newContent : JStr)
  | trash (path : JStr)
  | rename (oldPath newPath : JStr)
  | append (path text : JStr)
  | setTags (path : JStr) (tags : List JStr)
  | setProperty (path property value : JStr)
deriving DecidableEq

structure ToolResult where
  success : Bool
  message : JStr
deriving DecidableEq

/-- Wrap a string in double quotes (for the tool messages). -/
def quoted (s : JStr) : JStr := '"' :: (s ++ ['"'])

def failRes (m : JStr) (v : Vault) : ToolResult × Vault × List StoreOp :=
  ({success := false, message := m}, v, [])

def okRes (m : JStr) (v : Vault) (ops : List StoreOp) : ToolResult × Vault × List StoreOp :=
  ({success := true, message := m}, v, ops)

/-- `q` lies strictly inside folder `p`. -/
def pathWithin (p q : JStr) : Bool := (p ++ ['/']).isPrefixOf q

/-- `folder.children.length > 0`: some vault entry lies strictly inside. -/
def folderHasChildren (v : Vault) (p : JStr) : Bool :=
  v.files.any (fun f => pathWithin p f.path) || v.folders.any (fun q => pathWithin p q)

/-- Effect of trashing a folder: the folder and everything inside go. -/
def removeFolderTree (v : Vault) (p : JStr) : Vault :=
  { files := v.files.filter (fun f => ! pathWithin p f.path),
    folders := v.folders.filter (fun q => ! (decide (q = p) || pathWithin p q)) }

def addFolder (v : Vault) (p : JStr) : Vault := { v with folders := v.folders ++ [p] }

def addFile (v : Vault) (f : VaultFile) : Vault := { v with files := v.files ++ [f] }

def removeFile (v : Vault) (p : JStr) : Vault :=
  { v with files := v.files.filter (fun f => ! decide (f.path = p)) }

def updateFileContent (v : Vault) (p newContent : JStr) : Vault :=
  { v with files := v.files.map (fun f =>
      if f.path = p then { f with content := newContent } else f) }

def updateFileTags (v : Vault) (p : JStr) (tags : List JStr) : Vault :=
  { v with files := v.files.map (fun f =>
      if f.path = p then { f with tags := tags } else f) }

def renameVaultFile (v : Vault) (oldPath newPath : JStr) : Vault :=
  { v with files := v.files.map (fun f =>
      if f.path = oldPath then { f with path := newPath } else f) }

/-- `String.prototype.indexOf(pat, start)`, `-1` when absent. -/
def jsIndexOfFrom (s pat : JStr) (start : Nat) : ℤ :=
  match ((List.range (s.length + 1)).filter
      (fun i => decide (start ≤ i) && pat.isPrefixOf (s.drop i))).min? with
  | some i => (i : ℤ)
  | none => -1

/-- Each handler returns the tool result, the vault afterwards, and the
store operations performed; `.error` is a JS throw (in every handler a
throw can only happen before the first store operation). -/
abbrev HandlerResult := Except JStr (ToolResult × Vault × List StoreOp)

def createFolder (v : Vault) (args : Args) : HandlerResult := do
  let path ← sanitizePath (← getStringArg args ("path".toList) [])
  match getAbstractFileByPath v path with
  | some (.folder _) =>
    return okRes ("Folder ".toList ++ quoted path ++ " already exists.".toList) v []
  | some (.file _) =>
    return failRes ("A file with the name ".toList ++ quoted path ++ " already exists.".toList) v
  | none =>
    return okRes ("Created folder ".toList ++ quoted path ++ ".".toList)
      (addFolder v path) [.createFolder path]

def deleteFolder (v : Vault) (args : Args) : HandlerResult := do
  let path ← sanitizePath (← getStringArg args ("path".toList) [])
  let force := argIsTrue args ("force".toList)
  match getAbstractFileByPath v path with
  | none => return failRes ("Folder ".toList ++ quoted path ++ " not found.".toList) v
  | some (.file _) => return failRes (quoted path ++ " is not a folder.".toList) v
  | some (.folder p) =>
    if folderHasChildren v p ∧ ¬ force then
      return failRes ("Folder ".toList ++ quoted p
        ++ " is not empty. Use force=true to delete recursively.".toList) v
    else
      return okRes ("Deleted folder ".toList ++ quoted p
          ++ (if force then " and all its contents".toList else []) ++ ".".toList)
        (removeFolderTree v p) [.trash p]

def createNote (v : Vault) (args : Args) : HandlerResult := do
  let path0 ← getStringArg args ("path".toList) []
  let content ← getStringArg args ("content".toList) []
  let overwrite := argIsTrue args ("overwrite".toList)
  let path ← sanitizePath (if endsWithMd path0 then path0 else path0 ++ ".md".toList)
  let existing := getAbstractFileByPath v path
  if existing.isSome ∧ ¬ overwrite then
    return failRes ("Note ".toList ++ quoted path
      ++ " already exists. Use overwrite=true to replace.".toList) v
  else
  let parentPath := path.take (jsLastIndexOf path ['/']).toNat
  let (v1, ops1) :=
    if parentPath ≠ [] ∧ getAbstractFileByPath v parentPath = none then
      (addFolder v parentPath, [StoreOp.createFolder parentPath])
    else (v, [])
  match existing, overwrite with
  | some (.file _), true =>
    return okRes ("Overwrote note ".toList ++ quoted path ++ ".".toList)
      (updateFileContent v1 path content) (ops1 ++ [.processFile path content])
  | some (.folder _), true =>
    return ({success := false, message := quoted path ++ " is not a file.".toList}, v1, ops1)
  | _, _ =>
    return okRes ("Created note ".toList ++ quoted path ++ ".".toList)
      (addFile v1 ⟨path, content, []⟩) (ops1 ++ [.createFile path content])

def moveNoteFile (v : Vault) (f : VaultFile) (destinationFolder : JStr)
    (newName : Option JStr) : HandlerResult := do
  let (v1, ops1) :=
    if destinationFolder ≠ [] ∧ getAbstractFileByPath v destinationFolder = none then
      (addFolder v destinationFolder, [StoreOp.createFolder destinationFolder])
    else (v, [])
  let fileName := match newName with
    | some n => n ++ ".md".toList
    | none => afterLastSlash f.path
  let newPath :=
    if destinationFolder ≠ [] then
      obsidianNormalizePath (destinationFolder ++ ['/'] ++ fileName)
    else fileName
  let renamed := okRes ("Moved ".toList ++ quoted f.path ++ " to ".toList
      ++ quoted newPath ++ ".".toList)
    (renameVaultFile v1 f.path newPath) (ops1 ++ [.rename f.path newPath])
  match getAbstractFileByPath v1 newPath with
  | some af =>
    if af.path ≠ f.path then
      let m := "A note already exists at ".toList ++ quoted newPath ++ ".".toList
      return ({success := false, message := m}, v1, ops1)
    else return renamed
  | none => return renamed

def moveNote (v : Vault) (args : Args) : HandlerResult := do
  let sourcePath ← getStringArg args ("sourcePath".toList) []
  let destinationFolder ← sanitizePath (← getStringArg args ("destinationFolder".toList) [])
  let newName ←
    if argTruthy (lookupArg args ("newName".toList)) then
      (getStringArg args ("newName".toList) []).map some
    else .ok none
  match findFile v sourcePath with
  | none => return failRes ("Note ".toList ++ quoted sourcePath ++ " not found.".toList) v
  | some f => moveNoteFile v f destinationFolder newName

def renameNote (v : Vault) (args : Args) : HandlerResult := do
  let pathInput ← getStringArg args ("path".toList) []
  let newName ← getStringArg args ("newName".toList) []
  match findFile v pathInput with
  | none => return failRes ("Note ".toList ++ quoted pathInput ++ " not found.".toList) v
  | some f =>
    let idx := jsLastIndexOf f.path ['/']
    let parentPath := if idx < 0 then ['/'] else f.path.take idx.toNat
    let newPath := obsidianNormalizePath
      (if parentPath ≠ [] then parentPath ++ ['/'] ++ newName ++ ".md".toList
       else newName ++ ".md".toList)
    return okRes ("Renamed ".toList ++ quoted (baseNameOf f.path) ++ " to ".toList
        ++ quoted newName ++ ".".toList)
      (renameVaultFile v f.path newPath) [.rename f.path newPath]

def deleteNote (v : Vault) (args : Args) : HandlerResult := do
  let pathInput ← getStringArg args ("path".toList) []
  match findFile v pathInput with
  | none => return failRes ("Note ".toList ++ quoted pathInput ++ " not found.".toList) v
  | some f =>
    return okRes ("Deleted note ".toList ++ quoted f.path ++ " (moved to trash).".toList)
      (removeFile v f.path) [.trash f.path]

def appendToNote (v : Vault) (args : Args) : HandlerResult := do
  let pathInput ← getStringArg args ("path".toList) []
  let content ← getStringArg args ("content".toList) []
  match findFile v pathInput with
  | none => return failRes ("Note ".toList ++ quoted pathInput ++ " not found.".toList) v
  | some f =>
    return okRes ("Appended content to ".toList ++ quoted f.path ++ ".".toList)
      (updateFileContent v f.path (f.content ++ '\n' :: content)) [.append f.path ('\n' :: content)]

/-- The `vault.process` callback of `prependToNote`: insert after a
closing frontmatter fence when one exists, else prepend. -/
def prependedContent (content data : JStr) : JStr :=
  if dashes.isPrefixOf data then
    let e := jsIndexOfFrom data dashes 3
    if e ≠ -1 then
      data.take (e.toNat + 3) ++ '\n' :: content ++ data.drop (e.toNat + 3)
    else content ++ '\n' :: data
  else content ++ '\n' :: data

def prependToNote (v : Vault) (args : Args) : HandlerResult := do
  let pathInput ← getStringArg args ("path".toList) []
  let content ← getStringArg args ("content".toList) []
  match findFile v pathInput with
  | none => return failRes ("Note ".toList ++ quoted pathInput ++ " not found.".toList) v
  | some f =>
    let newData := prependedContent content f.content
    return okRes ("Prepended content to ".toList ++ quoted f.path ++ ".".toList)
      (updateFileContent v f.path newData) [.processFile f.path newData]

/-- The `searchNotes` result loop.  A name/path hit pushes and
`continue`s, skipping the 20-result break check of that iteration. -/
def searchNotesLoop (query : JStr) (searchContent : Bool) :
    List VaultFile → List JStr → List JStr
  | [], acc => acc
  | f :: rest, acc =>
    if jsIncludes (jsToLower (baseNameOf f.path)) query
        || jsIncludes (jsToLower f.path) query then
      searchNotesLoop query searchContent rest (acc ++ [f.path])
    else
      let acc2 := if searchContent && jsIncludes (jsToLower f.content) query
        then acc ++ [f.path] else acc
      if 20 ≤ acc2.length then acc2 else searchNotesLoop query searchContent rest acc2

def searchNotes (v : Vault) (args : Args) : HandlerResult := do
  let query := jsToLower (← getStringArg args ("query".toList) [])
  let searchContent := argIsTrue args ("searchContent".toList)
  let results := searchNotesLoop query searchContent v.files []
  let message :=
    if results ≠ [] then
      "Found ".toList ++ (toString results.length).toList ++ " matching notes:\n".toList
        ++ List.intercalate ['\n'] (results.map (fun r => '-' :: ' ' :: r))
    else "No notes found matching ".toList ++ quoted query ++ ".".toList
  return okRes message v []

/-- `child` is an immediate child of folder `parent` (`[]` = vault root). -/
def isImmediateChild (parent child : JStr) : Bool :=
  if parent = [] then decide (child ≠ []) && ! child.any (fun c => c = '/')
  else (parent ++ ['/']).isPrefixOf child && decide (child.drop (parent.length + 1) ≠ [])
    && ! (child.drop (parent.length + 1)).any (fun c => c = '/')

/-- `listFolder`: display entries of a folder (the children order of the
Obsidian API is unspecified; the model lists subfolders before files).
Fuel bounds the recursion depth. -/
def listFolderGo (v : Vault) (recursive : Bool) : Nat → JStr → JStr → List JStr
  | 0, _, _ => []
  | fuel + 1, p, pre =>
    (v.folders.filter (fun q => isImmediateChild p q)).flatMap (fun q =>
      (pre ++ afterLastSlash q ++ ['/'])
        :: (if recursive then listFolderGo v recursive fuel q (pre ++ afterLastSlash q ++ ['/'])
            else []))
    ++ (v.files.filter (fun f => isImmediateChild p f.path)).map
      (fun f => pre ++ afterLastSlash f.path)

def listFolder (v : Vault) (p : JStr) (recursive : Bool) : List JStr :=
  listFolderGo v recursive (v.folders.length + 1) p []

def listFolderContents (v : Vault) (args : Args) : HandlerResult := do
  let pathInput ← getStringArg args ("path".toList) []
  let path ← if pathInput ≠ [] then sanitizePath pathInput else .ok []
  let recursive := argIsTrue args ("recursive".toList)
  let listing := fun (p : JStr) =>
    okRes ("Contents of ".toList
        ++ quoted (if p = [] then "vault root".toList else p) ++ ":\n".toList
        ++ List.intercalate ['\n'] ((listFolder v p recursive).map (fun c => '-' :: ' ' :: c)))
      v []
  if path = [] ∨ path = ['/'] then
    return listing []
  else
    match getAbstractFileByPath v path with
    | none => return failRes ("Folder ".toList ++ quoted path ++ " not found.".toList) v
    | some (.file _) => return failRes (quoted path ++ " is not a folder.".toList) v
    | some (.folder p) => return listing p

def getNoteContent (v : Vault) (args : Args) : HandlerResult := do
  let pathInput ← getStringArg args ("path".toList) []
  match findFile v pathInput with
  | none => return failRes ("Note ".toList ++ quoted pathInput ++ " not found.".toList) v
  | some f =>
    return okRes ("Content of ".toList ++ quoted f.path ++ ":\n\n".toList ++ f.content) v []

def addTag (v : Vault) (args : Args) : HandlerResult := do
  let pathInput ← getStringArg args ("path".toList) []
  let tagRaw ← getStringArg args ("tag".toList) []
  let tag := if tagRaw.head? = some '#' then tagRaw.drop 1 else tagRaw
  match findFile v pathInput with
  | none => return failRes ("Note ".toList ++ quoted pathInput ++ " not found.".toList) v
  | some f =>
    let newTags := if tag ∈ f.tags then f.tags else f.tags ++ [tag]
    return okRes ("Added tag ".toList ++ quoted tag ++ " to ".toList ++ quoted f.path ++ ".".toList)
      (updateFileTags v f.path newTags) [.setTags f.path newTags]

def removeTag (v : Vault) (args : Args) : HandlerResult := do
  let pathInput ← getStringArg args ("path".toList) []
  let tagRaw ← getStringArg args ("tag".toList) []
  let tag := if tagRaw.head? = some '#' then tagRaw.drop 1 else tagRaw
  match findFile v pathInput with
  | none => return failRes ("Note ".toList ++ quoted pathInput ++ " not found.".toList) v
  | some f =>
    let message :=
      if tag ∈ f.tags then
        "Removed tag ".toList ++ quoted tag ++ " from ".toList ++ quoted f.path ++ ".".toList
      else "Tag ".toList ++ quoted tag ++ " was not found in ".toList ++ quoted f.path ++ ".".toList
    return okRes message (updateFileTags v f.path (f.tags.erase tag)) [.setTags f.path (f.tags.erase tag)]

/-- `updateFrontmatter` stores the (possibly JSON-parsed) value under an
arbitrary property; properties other than `tags` live outside the file
model, so the vault state is unchanged and the op records the raw value. -/
def updateFrontmatter (v : Vault) (args : Args) : HandlerResult := do
  let pathInput ← getStringArg args ("path".toList) []
  let property ← getStringArg args ("property".toList) []
  let valueStr ← getStringArg args ("value".toList) []
  match findFile v pathInput with
  | none => return failRes ("Note ".toList ++ quoted pathInput ++ " not found.".toList) v
  | some f =>
    return okRes ("Updated property ".toList ++ quoted property ++ " in ".toList
        ++ quoted f.path ++ ".".toList)
      v [.setProperty f.path property valueStr]

/-- `openNote` only touches the workspace (a leaf), never the store. -/
def openNote (v : Vault) (args : Args) : HandlerResult := do
  let pathInput ← getStringArg args ("path".toList) []
  match findFile v pathInput with
  | none => return failRes ("Note ".toList ++ quoted pathInput ++ " not found.".toList) v
  | some f => return okRes ("Opened ".toList ++ quoted f.path ++ ".".toList) v []

/-- `TOOL_DEFINITIONS` (from `definitions.ts`): tool name and parameter
list with the `required` flags, in source order. -/
def TOOL_DEFINITIONS : List (JStr × List (JStr × Bool)) :=
  [("create_folder".toList, [("path".toList, true)]),
   ("delete_folder".toList, [("path".toList, true), ("force".toList, false)]),
   ("create_note".toList,
     [("path".toList, true), ("content".toList, false), ("overwrite".toList, false)]),
   ("move_note".toList,
     [("sourcePath".toList, true), ("destinationFolder".toList, true), ("newName".toList, false)]),
   ("rename_note".toList, [("path".toList, true), ("newName".toList, true)]),
   ("delete_note".toList, [("path".toList, true)]),
   ("append_to_note".toList, [("path".toList, true), ("content".toList, true)]),
   ("prepend_to_note".toList, [("path".toList, true), ("content".toList, true)]),
   ("search_notes".toList, [("query".toList, true), ("searchContent".toList, false)]),
   ("list_folder_contents".toList, [("path".toList, false), ("recursive".toList, false)]),
   ("get_note_content".toList, [("path".toList, true)]),
   ("add_tag".toList, [("path".toList, true), ("tag".toList, true)]),
   ("remove_tag".toList, [("path".toList, true), ("tag".toList, true)]),
   ("update_frontmatter".toList,
     [("path".toList, true), ("property".toList, true), ("value".toList, true)]),
   ("open_note".toList, [("path".toList, true), ("newTab".toList, false)])]

/-- The `switch` of `ToolExecutor.execute`. -/
def runTool (v : Vault) (name : JStr) (args : Args) : HandlerResult :=
  if name = "create_folder".toList then createFolder v args
  else if name = "delete_folder".toList then deleteFolder v args
  else if name = "create_note".toList then createNote v args
  else if name = "move_note".toList then moveNote v args
  else if name = "rename_note".toList then renameNote v args
  else if name = "delete_note".toList then deleteNote v args
  else if name = "append_to_note".toList then appendToNote v args
  else if name = "prepend_to_note".toList then prependToNote v args
  else if name = "search_notes".toList then searchNotes v args
  else if name = "list_folder_contents".toList then listFolderContents v args
  else if name = "get_note_content".toList then getNoteContent v args
  else if name = "add_tag".toList then addTag v args
  else if name = "remove_tag".toList then removeTag v args
  else if name = "update_frontmatter".toList then updateFrontmatter v args
  else if name = "open_note".toList then openNote v args
  else .ok (failRes ("Tool not implemented: ".toList ++ name) v)

/-- `ToolExecutor.execute`: registry lookup, required-parameter presence
check, dispatch, with the `catch` turning a throw into a failure result
(no handler performs a store operation before it can throw, so the vault
is untouched then). -/
def executeTool (v : Vault) (name : JStr) (args : Args) :
    ToolResult × Vault × List StoreOp :=
  match TOOL_DEFINITIONS.find? (fun t => t.1 = name) with
  | none => failRes ("Unknown tool: ".toList ++ name) v
  | some t =>
    match t.2.find? (fun p => p.2 && (lookupArg args p.1).isNone) with
    | some p => failRes ("Missing required parameter: ".toList ++ p.1) v
    | none =>
      match runTool v name args with
      | .ok r => r
      | .error m =>
        failRes ("Error executing ".toList ++ name ++ ": ".toList ++ m) v

/-- The `..` substring the path-traversal guard looks for. -/
def dotdot : JStr := ['.', '.']

/-- A well-formed vault: no stored path contains `..`. -/
abbrev wfVault (v : Vault) : Prop :=
  (∀ f ∈ v.files, ¬ dotdot <:+: f.path) ∧ ∀ q ∈ v.folders, ¬ dotdot <:+: q

/-- The traversal attack path of the claim. -/
def traversalPath : JStr := "../../etc/passwd".toList

/-- Arguments carrying the attack path plus every other required string
parameter of the path-taking tools (extra keys are ignored by handlers). -/
def traversalArgs : Args :=
  [("path".toList, .str traversalPath), ("newName".toList, .str ("renamed".toList)),
   ("content".toList, .str ("x".toList)), ("tag".toList, .str ("todo".toList)),
   ("property".toList, .str ("status".toList)), ("value".toList, .str ("done".toList))]

/-- `move_note` arguments with the attack path as source. -/
def traversalMoveArgs : Args :=
  [("sourcePath".toList, .str traversalPath),
   ("destinationFolder".toList, .str ("Archive".toList))]

/-- The tools that pass their path argument through `sanitizePath`. -/
def sanitizingPathTools : List JStr :=
  ["create_folder".toList, "delete_folder".toList, "create_note".toList,
   "list_folder_contents".toList]

/-- The tools that resolve their path argument through `findFile`. -/
def lookupPathTools : List JStr :=
  ["rename_note".toList, "delete_note".toList, "append_to_note".toList,
   "prepend_to_note".toList, "get_note_content".toList, "add_tag".toList,
   "remove_tag".toList, "update_frontmatter".toList, "open_note".toList]

/-- The not-found message every `findFile` tool produces for the attack. -/
def notFoundTraversalMsg : JStr :=
  "Note ".toList ++ quoted traversalPath ++ " not found.".toList

/-- A small concrete well-formed vault for witnesses. -/
def sampleVault : Vault :=
  ⟨[⟨"Notes/hello.md".toList, "hi".toList, []⟩], ["Notes".toList]⟩

/-! ## Tool-call parsing (`parser.ts`, second version)

`parseToolCalls` gathers candidates from three strategies — fenced
```tool blocks, fenced ```json blocks, and bare inline JSON found by
balanced-brace matching on the response with code stripped — and pushes
each unless its key was already seen.  The host `JSON.parse` is embedded
as a fuel-indexed recursive-descent parser over `JsonVal` (numbers keep
their raw token; `\u` escapes map through `Char.ofNat`; neither
canonicalization is exercised here).  `JSON.stringify` of the
`{tool, args}` key is injective on parsed values, so the seen-set holds
the `(tool, arguments)` pairs themselves.  `removeToolBlocks` (second
version) cuts the response at the first position matched by either of
its two regexes and tidies whitespace. -/

/-- The JSON whitespace class (also what `\s` matches in the parser's
regexes for the characters that occur here). -/
def isJsonWs (c : Char) : Bool := decide (c = ' ' ∨ c = '\t' ∨ c = '\n' ∨ c = '\r')

mutual
/-- A parsed JSON value (a JS value produced by `JSON.parse`). -/
inductive JsonVal where
  | str (s : JStr)
  | num (lit : JStr)
  | bool (b : Bool)
  | null
  | arr (xs : JsonArr)
  | obj (fs : JsonFields)
deriving DecidableEq
/-- A JSON array. -/
inductive JsonArr where
  | nil
  | cons (hd : JsonVal) (tl : JsonArr)
deriving DecidableEq
/-- JSON object fields in source order. -/
inductive JsonFields where
  | nil
  | cons (k : JStr) (v : JsonVal) (tl : JsonFields)
deriving DecidableEq
end

def JsonArr.push : JsonArr → JsonVal → JsonArr
  | .nil, v => .cons v .nil
  | .cons h t, v => .cons h (t.push v)

def JsonFields.push : JsonFields → JStr → JsonVal → JsonFields
  | .nil, k, v => .cons k v .nil
  | .cons k0 v0 t, k, v => .cons k0 v0 (t.push k v)

/-- Property access on a JS object built by `JSON.parse`: with duplicate
keys the last value wins. -/
def JsonFields.getLast : JsonFields → JStr → Option JsonVal
  | .nil, _ => none
  | .cons k v t, key =>
    match t.getLast key with
    | some w => some w
    | none => if k = key then some v else none

def hexVal (c : Char) : Option Nat :=
  if '0' ≤ c ∧ c ≤ '9' then some (c.toNat - 48)
  else if 'a' ≤ c ∧ c ≤ 'f' then some (c.toNat - 87)
  else if 'A' ≤ c ∧ c ≤ 'F' then some (c.toNat - 55)
  else none

/-- JSON string body after the opening quote: returns the decoded
content and the rest after the closing quote. -/
def parseStringBody : Nat → JStr → Option (JStr × JStr)
  | 0, _ => none
  | _ + 1, [] => none
  | fuel + 1, c :: rest =>
    if c = '"' then some ([], rest)
    else if c = '\\' then
      match rest with
      | [] => none
      | e :: rest2 =>
        let dec : Option (JStr × JStr) :=
          if e = '"' then some (['"'], rest2)
          else if e = '\\' then some (['\\'], rest2)
          else if e = '/' then some (['/'], rest2)
          else if e = 'b' then some ([Char.ofNat 8], rest2)
          else if e = 'f' then some ([Char.ofNat 12], rest2)
          else if e = 'n' then some (['\n'], rest2)
          else if e = 'r' then some (['\r'], rest2)
          else if e = 't' then some (['\t'], rest2)
          else if e = 'u' then
            match rest2 with
            | h1 :: h2 :: h3 :: h4 :: rest3 =>
              match hexVal h1, hexVal h2, hexVal h3, hexVal h4 with
              | some a, some b, some c2, some d =>
                some ([Char.ofNat (4096 * a + 256 * b + 16 * c2 + d)], rest3)
              | _, _, _, _ => none
            | _ => none
          else none
        match dec with
        | some (chars, r2) =>
          match parseStringBody fuel r2 with
          | some (str, r) => some (chars ++ str, r)
          | none => none
        | none => none
    else if c.toNat < 32 then none
    else
      match parseStringBody fuel rest with
      | some (str, r) => some (c :: str, r)
      | none => none

/-- A JSON number token (kept verbatim as `.num`). -/
def parseNumberTok (s : JStr) : Option (JsonVal × JStr) :=
  let (negPart, s1) := if s.head? = some '-' then ((['-'] : JStr), s.drop 1) else ([], s)
  let intPart := s1.takeWhile Char.isDigit
  if intPart = [] then none
  else if 1 < intPart.length ∧ intPart.head? = some '0' then none
  else
    let s2 := s1.drop intPart.length
    let fracDigits := if s2.head? = some '.' then some ((s2.drop 1).takeWhile Char.isDigit) else none
    match fracDigits with
    | some [] => none
    | _ =>
      let fracPart : JStr := match fracDigits with | some ds => '.' :: ds | none => []
      let s3 := s2.drop fracPart.length
      if s3.head? = some 'e' ∨ s3.head? = some 'E' then
        let afterE := s3.drop 1
        let sgn : JStr :=
          if afterE.head? = some '+' ∨ afterE.head? = some '-' then afterE.take 1 else []
        let ds := (afterE.drop sgn.length).takeWhile Char.isDigit
        if ds = [] then none
        else some (.num (negPart ++ intPart ++ fracPart ++ s3.take 1 ++ sgn ++ ds),
          s3.drop (1 + sgn.length + ds.length))
      else some (.num (negPart ++ intPart ++ fracPart), s3)

/-- Parser modes: a value, the members of an object, or the items of an
array (with the fields/items read so far). -/
inductive PMode where
  | value
  | members (acc : JsonFields)
  | items (acc : JsonArr)

/-- Recursive-descent JSON parsing, fuel-indexed so it computes. -/
def parseJ : Nat → PMode → JStr → Option (JsonVal × JStr)
  | 0, _, _ => none
  | fuel + 1, .value, s0 =>
    let s := s0.dropWhile isJsonWs
    match s with
    | [] => none
    | c :: rest =>
      if c = '"' then
        match parseStringBody (rest.length + 1) rest with
        | some (str, r) => some (.str str, r)
        | none => none
      else if c = '{' then
        match rest.dropWhile isJsonWs with
        | '}' :: r2 => some (.obj .nil, r2)
        | _ => parseJ fuel (.members .nil) rest
      else if c = '[' then
        match rest.dropWhile isJsonWs with
        | ']' :: r2 => some (.arr .nil, r2)
        | _ => parseJ fuel (.items .nil) rest
      else if ("true".toList).isPrefixOf s then some (.bool true, s.drop 4)
      else if ("false".toList).isPrefixOf s then some (.bool false, s.drop 5)
      else if ("null".toList).isPrefixOf s then some (.null, s.drop 4)
      else parseNumberTok s
  | fuel + 1, .members acc, s =>
    match s.dropWhile isJsonWs with
    | '"' :: r =>
      match parseStringBody (r.length + 1) r with
      | some (key, r2) =>
        match r2.dropWhile isJsonWs with
        | ':' :: r4 =>
          match parseJ fuel .value r4 with
          | some (v, r5) =>
            match r5.dropWhile isJsonWs with
            | ',' :: r7 => parseJ fuel (.members (acc.push key v)) r7
            | '}' :: r7 => some (.obj (acc.push key v), r7)
            | _ => none
          | none => none
        | _ => none
      | none => none
    | _ => none
  | fuel + 1, .items acc, s =>
    match parseJ fuel .value s with
    | some (v, r) =>
      match r.dropWhile isJsonWs with
      | ',' :: r2 => parseJ fuel (.items (acc.push v)) r2
      | ']' :: r2 => some (.arr (acc.push v), r2)
      | _ => none
    | none => none

/-- `JSON.parse`: one value, only whitespace may follow; `none` is a
thrown `SyntaxError`. -/
def jsonParse (s : JStr) : Option JsonVal :=
  match parseJ (s.length + 1) .value s with
  | some (v, rest) => if rest.dropWhile isJsonWs = [] then some v else none
  | none => none

/-- A parsed tool call (`ToolCall { name, arguments }`). -/
structure ToolCall where
  name : JStr
  arguments : JsonVal
deriving DecidableEq

/-- `parsed.arguments ?? {}`. -/
def argsOf (fs : JsonFields) : JsonVal :=
  match fs.getLast ("arguments".toList) with
  | some .null => .obj .nil
  | some a => a
  | none => .obj .nil

/-- `isParsedToolCall` plus the `{name, arguments}` extraction: an object
whose `tool` property is a string. -/
def asToolCall : JsonVal → Option (JStr × JsonVal)
  | .obj fs =>
    match fs.getLast ("tool".toList) with
    | some (.str t) => some (t, argsOf fs)
    | _ => none
  | _ => none

/-- Index of the first suffix of `s` satisfying `p` (the index at which
a JS regex `.match`/`.exec` scan first succeeds). -/
def firstMatchFrom (p : JStr → Bool) : JStr → Option Nat
  | [] => if p [] then some 0 else none
  | c :: rest => if p (c :: rest) then some 0 else (firstMatchFrom p rest).map (fun n => n + 1)

/-- Least index at which `pat` occurs in `s`. -/
def firstIdxOfSub (s pat : JStr) : Option Nat :=
  firstMatchFrom (fun t => pat.isPrefixOf t) s

/-- The captures of the global regex for a fenced block with the given
tag: content between the tag and the next triple backtick, resuming
after the closing fence (the regex's `\s*` is subsumed by the `trim`
every caller applies). -/
def extractFencedGo (tag : JStr) : Nat → JStr → List JStr
  | 0, _ => []
  | fuel + 1, s =>
    match firstIdxOfSub s (fence ++ tag) with
    | none => []
    | some i =>
      let afterTag := s.drop (i + (fence ++ tag).length)
      match firstIdxOfSub afterTag fence with
      | none => []
      | some j => afterTag.take j :: extractFencedGo tag fuel (afterTag.drop (j + fence.length))

def extractFenced (tag : JStr) (s : JStr) : List JStr := extractFencedGo tag (s.length + 1) s

/-- `replace(/```[\s\S]*?```/g, '')`: drop every fenced block. -/
def removeAllFencesGo : Nat → JStr → JStr
  | 0, s => s
  | fuel + 1, s =>
    match firstIdxOfSub s fence with
    | none => s
    | some i =>
      let after := s.drop (i + fence.length)
      match firstIdxOfSub after fence with
      | none => s
      | some j => s.take i ++ removeAllFencesGo fuel (after.drop (j + fence.length))

def removeAllFences (s : JStr) : JStr := removeAllFencesGo (s.length + 1) s

/-- `replace(/`[^`]+`/g, '')`: drop inline code spans. -/
def stripInlineCodeGo : Nat → JStr → JStr
  | 0, s => s
  | _ + 1, [] => []
  | fuel + 1, c :: rest =>
    if c = backtick then
      let body := rest.takeWhile (fun d => ¬ d = backtick)
      if body ≠ [] ∧ (rest.drop body.length).head? = some backtick then
        stripInlineCodeGo fuel (rest.drop (body.length + 1))
      else c :: stripInlineCodeGo fuel rest
    else c :: stripInlineCodeGo fuel rest

def stripInlineCode (s : JStr) : JStr := stripInlineCodeGo s.length s

/-- Length matched by `/"tool"\s*:\s*"/` at the head of `s`, if any. -/
def toolKeyMatchLen (s : JStr) : Option Nat :=
  if ("\"tool\"".toList).isPrefixOf s then
    let r1 := s.drop 6
    let w1 := r1.takeWhile isJsWhitespace
    match r1.drop w1.length with
    | ':' :: r3 =>
      let w2 := r3.takeWhile isJsWhitespace
      if (r3.drop w2.length).head? = some '"' then some (6 + w1.length + 1 + w2.length + 1)
      else none
    | _ => none
  else none

/-- `while (braceStart > 0 && text[braceStart] !== '{') braceStart--`. -/
def braceStartFrom (full : JStr) : Nat → Nat
  | 0 => 0
  | i + 1 => if (full.drop (i + 1)).head? = some '{' then i + 1 else braceStartFrom full i

/-- The balanced-brace scan of `findJsonToolCalls`: relative index of the
brace closing the object starting here, tracking string/escape state. -/
def scanBracesGo : JStr → Int → Bool → Bool → Nat → Option Nat
  | [], _, _, _, _ => none
  | c :: rest, depth, inString, escapeNext, idx =>
    if escapeNext then scanBracesGo rest depth inString false (idx + 1)
    else if c = '\\' then scanBracesGo rest depth inString true (idx + 1)
    else if c = '"' then scanBracesGo rest depth (! inString) false (idx + 1)
    else if ¬ inString ∧ c = '{' then scanBracesGo rest (depth + 1) inString false (idx + 1)
    else if ¬ inString ∧ c = '}' then
      if depth = 1 then some idx else scanBracesGo rest (depth - 1) inString false (idx + 1)
    else scanBracesGo rest depth inString false (idx + 1)

/-- `findJsonToolCalls`: scan for `"tool"\s*:\s*"`, back up to the
nearest `{`, take the balanced object, parse it, keep valid tool calls. -/
def findJsonToolCallsGo (full : JStr) : Nat → Nat → List (JStr × JsonVal)
  | 0, _ => []
  | fuel + 1, pos =>
    match toolKeyMatchLen (full.drop pos) with
    | some mlen =>
      let rest := findJsonToolCallsGo full fuel (pos + mlen)
      let bs := braceStartFrom full pos
      if (full.drop bs).head? = some '{' then
        match scanBracesGo (full.drop bs) 0 false false 0 with
        | none => rest
        | some endRel =>
          match jsonParse ((full.drop bs).take (endRel + 1)) with
          | some v =>
            match asToolCall v with
            | some tc => tc :: rest
            | none => rest
          | none => rest
      else rest
    | none => if full.length ≤ pos then [] else findJsonToolCallsGo full fuel (pos + 1)

def findJsonToolCalls (full : JStr) : List (JStr × JsonVal) :=
  findJsonToolCallsGo full (full.length + 2) 0

/-- One fenced capture through `trim`, `JSON.parse` and the type guard. -/
def parseBlockCand (b : JStr) : Option (JStr × JsonVal) :=
  match jsonParse (jsTrim b) with
  | some v => asToolCall v
  | none => none

/-- `parseToolCalls` (second version): all three strategies feed one
shared seen-set keyed by the `{tool, args}` pair. -/
def parseToolCalls (response : JStr) : List ToolCall :=
  let cands := (extractFenced ("tool".toList) response).filterMap parseBlockCand
    ++ (extractFenced ("json".toList) response).filterMap parseBlockCand
    ++ findJsonToolCalls (stripInlineCode (removeAllFences response))
  (cands.foldl (fun acc p =>
      if p ∈ acc.2 then acc
      else (acc.1 ++ [ToolCall.mk p.1 p.2], acc.2 ++ [p]))
    (([], []) : List ToolCall × List (JStr × JsonVal))).1

/-- `/"tool"\s*:/` matches at the head of `s`. -/
def toolColonAt (s : JStr) : Bool :=
  ("\"tool\"".toList).isPrefixOf s && decide (((s.drop 6).dropWhile isJsWhitespace).head? = some ':')

def hasToolColon (s : JStr) : Bool := (firstMatchFrom toolColonAt s).isSome

/-- `removeToolBlocks`'s first regex matches at the head of `s`:
a ```tool or ```json fence whose first non-space character is `{`,
with `"tool"\s*:` somewhere after it. -/
def fencedToolMatchAt (s : JStr) : Bool :=
  ((fence ++ "tool".toList).isPrefixOf s || (fence ++ "json".toList).isPrefixOf s)
  && (let r := (s.drop 7).dropWhile isJsWhitespace
      decide (r.head? = some '{') && hasToolColon (r.drop 1))

/-- `removeToolBlocks`'s second regex matches at the head of `s`:
`{` ws `"tool"` ws `:` ws a nonempty string ws `,` ws `"arguments"` ws `:`. -/
def inlineToolMatchAt (s : JStr) : Bool :=
  decide (s.head? = some '{')
  && (let r1 := (s.drop 1).dropWhile isJsWhitespace
      ("\"tool\"".toList).isPrefixOf r1
      && (let r2 := (r1.drop 6).dropWhile isJsWhitespace
          decide (r2.head? = some ':')
          && (let r3 := (r2.drop 1).dropWhile isJsWhitespace
              decide (r3.head? = some '"')
              && (let body := (r3.drop 1).takeWhile (fun c => ¬ c = '"')
                  decide (body ≠ [])
                  && (let r4 := (r3.drop 1).drop body.length
                      decide (r4.head? = some '"')
                      && (let r5 := (r4.drop 1).dropWhile isJsWhitespace
                          decide (r5.head? = some ',')
                          && (let r6 := (r5.drop 1).dropWhile isJsWhitespace
                              ("\"arguments\"".toList).isPrefixOf r6
                              && (let r7 := (r6.drop 11).dropWhile isJsWhitespace
                                  decide (r7.head? = some ':')))))))))

/-- `cutoffIndex`: the earliest of the two first-match indices (or the
whole length when neither regex matches). -/
def toolCutoff (response : JStr) : Nat :=
  min (match firstMatchFrom fencedToolMatchAt response with
        | some i => i
        | none => response.length)
      (match firstMatchFrom inlineToolMatchAt response with
        | some i => i
        | none => response.length)

/-- `removeToolBlocks` (second version): keep the prefix before the
first tool-call match, collapse newline runs, trim. -/
def removeToolBlocks (response : JStr) : JStr :=
  jsTrim (collapseNewlines (response.take (toolCutoff response)))

/-- The duplicated call used for C3, as raw JSON text. -/
def c3CallLine : JStr :=
  "\x7b\"tool\": \"create_folder\", \"arguments\": \x7b\"path\": \"Inbox\"\x7d\x7d".toList

def c3ToolBlock : JStr := fence ++ "tool\n".toList ++ c3CallLine ++ '\n' :: fence

def c3JsonBlock : JStr := fence ++ "json\n".toList ++ c3CallLine ++ '\n' :: fence

/-- The C3 failing input: the same call once in a ```tool fence and once
in a ```json fence. -/
def c3Input : JStr := c3ToolBlock ++ "\nSome text.\n".toList ++ c3JsonBlock

def c3Call : ToolCall :=
  ⟨"create_folder".toList, JsonVal.obj (.cons ("path".toList) (.str ("Inbox".toList)) .nil)⟩

/-- The C6 counterexample input: a bare inline tool object without an
`"arguments"` member. -/
def c6Input : JStr := "Before \x7b\"tool\": \"open_note\"\x7d after".toList

def c6Call : ToolCall := ⟨"open_note".toList, JsonVal.obj .nil⟩

/-! ## Theorems -/

theorem sumSq_nonneg (v : Vec) : 0 ≤ sumSq v := by
  induction v with
  | nil => simp [sumSq]
  | cons x t ih =>
    simp only [sumSq, List.map_cons, List.sum_cons]
    have : 0 ≤ x * x := mul_self_nonneg x
    have ih' : 0 ≤ sumSq t := ih
    simp only [sumSq] at ih'
    linarith

theorem sumSq_pos {v : Vec} (h : ∃ x ∈ v, x ≠ 0) : 0 < sumSq v := by
  obtain ⟨x, hx, hx0⟩ := h
  induction v with
  | nil => simp at hx
  | cons y t ih =>
    simp only [sumSq, List.map_cons, List.sum_cons]
    have ht : 0 ≤ sumSq t := sumSq_nonneg t
    rcases List.mem_cons.mp hx with rfl | hmem
    · have : 0 < x * x := mul_self_pos.mpr hx0
      simp only [sumSq] at ht
      linarith
    · have := ih hmem
      simp only [sumSq] at this
      have hy : 0 ≤ y * y := mul_self_nonneg y
      linarith

theorem dotProduct_self (v : Vec) : dotProduct v v = sumSq v := by
  induction v with
  | nil => rfl
  | cons x t ih => simp only [dotProduct, sumSq, List.zipWith_cons_cons, List.map_cons,
      List.sum_cons] at ih ⊢; rw [ih]

theorem dotProduct_neg_self (v : Vec) :
    dotProduct v (v.map (fun x => -x)) = -(sumSq v) := by
  induction v with
  | nil => simp [dotProduct, sumSq]
  | cons x t ih => simp only [dotProduct, sumSq, List.map_cons, List.zipWith_cons_cons,
      List.sum_cons] at ih ⊢; rw [ih]; ring

theorem sumSq_neg (v : Vec) : sumSq (v.map (fun x => -x)) = sumSq v := by
  induction v with
  | nil => rfl
  | cons x t ih => simp only [sumSq, List.map_cons, List.sum_cons] at ih ⊢; rw [ih]; ring_nf

theorem dotProduct_comm (a b : Vec) : dotProduct a b = dotProduct b a := by
  unfold dotProduct
  rw [List.zipWith_comm (fun x y => x * y)]
  simp [mul_comm]

theorem cosineSimilarity_of_length_eq {a b : Vec} (h : a.length = b.length) :
    cosineSimilarity a b = .ok (cosSimVal a b) := by
  unfold cosineSimilarity
  rw [if_neg (by simp [h])]

theorem cosSimVal_eq {a b : Vec} :
    cosSimVal a b =
      if Real.sqrt (sumSq a) = 0 ∨ Real.sqrt (sumSq b) = 0 then 0
      else dotProduct a b / (Real.sqrt (sumSq a) * Real.sqrt (sumSq b)) := rfl

/-- C4. For every nonzero vector `v`, `cosineSimilarity(v, v) = 1` and
`cosineSimilarity(v, -v) = -1`; for equal-length `a`, `b` the function is
symmetric, and it returns 0 when either (equal-length) argument is all-zero. -/
theorem cosineSimilarity_properties (v a b : Vec) :
    ((∃ x ∈ v, x ≠ 0) →
        cosineSimilarity v v = .ok 1 ∧
        cosineSimilarity v (v.map (fun x => -x)) = .ok (-1))
    ∧ (a.length = b.length →
        (cosineSimilarity a b = cosineSimilarity b a
        ∧ (((∀ x ∈ a, x = 0) ∨ (∀ x ∈ b, x = 0)) → cosineSimilarity a b = .ok 0))) := by
  constructor
  · intro hnz
    have hpos : 0 < sumSq v := sumSq_pos hnz
    have hsqrt : Real.sqrt (sumSq v) ≠ 0 := by
      intro h0
      have := (Real.sqrt_eq_zero (le_of_lt hpos)).mp h0
      exact absurd this (ne_of_gt hpos)
    have hmul : Real.sqrt (sumSq v) * Real.sqrt (sumSq v) = sumSq v :=
      Real.mul_self_sqrt (le_of_lt hpos)
    constructor
    · rw [cosineSimilarity_of_length_eq rfl, cosSimVal_eq]
      rw [if_neg (by simp [hsqrt])]
      rw [dotProduct_self, hmul, div_self (ne_of_gt hpos)]
    · rw [cosineSimilarity_of_length_eq (by simp), cosSimVal_eq]
      rw [sumSq_neg]
      rw [if_neg (by simp [hsqrt])]
      rw [dotProduct_neg_self, hmul, neg_div, div_self (ne_of_gt hpos)]
  · intro hlen
    have hcomm : ∀ x y : Vec, cosSimVal x y = cosSimVal y x := by
      intro x y
      rw [cosSimVal_eq, cosSimVal_eq]
      by_cases hc : Real.sqrt (sumSq x) = 0 ∨ Real.sqrt (sumSq y) = 0
      · rw [if_pos hc, if_pos hc.symm]
      · rw [if_neg hc, if_neg (fun h => hc h.symm)]
        rw [dotProduct_comm, mul_comm (Real.sqrt (sumSq y))]
    constructor
    · rw [cosineSimilarity_of_length_eq hlen, cosineSimilarity_of_length_eq hlen.symm, hcomm]
    · intro hz
      have hzero : Real.sqrt (sumSq a) = 0 ∨ Real.sqrt (sumSq b) = 0 := by
        rcases hz with hza | hzb
        · left
          have : sumSq a = 0 := by
            unfold sumSq
            rw [List.sum_eq_zero]
            intro y hy
            obtain ⟨x, hx, rfl⟩ := List.mem_map.mp hy
            rw [hza x hx]; ring
          rw [this, Real.sqrt_zero]
        · right
          have : sumSq b = 0 := by
            unfold sumSq
            rw [List.sum_eq_zero]
            intro y hy
            obtain ⟨x, hx, rfl⟩ := List.mem_map.mp hy
            rw [hzb x hx]; ring
          rw [this, Real.sqrt_zero]
      rw [cosineSimilarity_of_length_eq hlen, cosSimVal_eq, if_pos hzero]

/-- Witness for `cosineSimilarity_properties` at `v = [1, 2]`, `a = [0, 0]`,
`b = [3, 4]`. -/
theorem cosineSimilarity_properties_witness :
    cosineSimilarity [(1 : ℝ), 2] [(1 : ℝ), 2] = .ok 1 ∧
    cosineSimilarity [(1 : ℝ), 2] (([(1 : ℝ), 2]).map (fun x => -x)) = .ok (-1) ∧
    cosineSimilarity [(0 : ℝ), 0] [(3 : ℝ), 4] = cosineSimilarity [(3 : ℝ), 4] [(0 : ℝ), 0] ∧
    cosineSimilarity [(0 : ℝ), 0] [(3 : ℝ), 4] = .ok 0 := by
  have h := cosineSimilarity_properties [(1 : ℝ), 2] [(0 : ℝ), 0] [(3 : ℝ), 4]
  have h1 := h.1 ⟨1, by simp, one_ne_zero⟩
  have h2 := h.2 (by simp)
  exact ⟨h1.1, h1.2, h2.1, h2.2 (Or.inl (by intro x hx; simpa using hx))⟩

/-- C9. On mismatched dimensions both `cosineSimilarity` and
`euclideanDistance` throw; no score is computed. -/
theorem dimension_mismatch_throws (a b : Vec) (h : a.length ≠ b.length) :
    cosineSimilarity a b = .error "Vectors must have the same dimension" ∧
    euclideanDistance a b = .error "Vectors must have the same dimension" := by
  constructor
  · unfold cosineSimilarity; rw [if_pos h]
  · unfold euclideanDistance; rw [if_pos h]

/-- Witness for `dimension_mismatch_throws` at `a = [1]`, `b = []`. -/
theorem dimension_mismatch_throws_witness :
    cosineSimilarity [(1 : ℝ)] [] = .error "Vectors must have the same dimension" ∧
    euclideanDistance [(1 : ℝ)] [] = .error "Vectors must have the same dimension" :=
  dimension_mismatch_throws [(1 : ℝ)] [] (by simp)

theorem mapScore_perm_sortAscByScore (l : List SearchResult) :
    List.Perm ((sortAscByScore l).map (fun r => r.score)) (l.map (fun r => r.score)) :=
  (List.perm_insertionSort _ l).map _

theorem sorted_sortAscByScore (l : List SearchResult) :
    List.Sorted (fun a b => a.score ≤ b.score) (sortAscByScore l) :=
  List.sorted_insertionSort _ l

theorem mem_sortAscByScore {l : List SearchResult} {r : SearchResult} :
    r ∈ sortAscByScore l ↔ r ∈ l :=
  (List.perm_insertionSort _ l).mem_iff

theorem length_sortAscByScore (l : List SearchResult) :
    (sortAscByScore l).length = l.length :=
  (List.perm_insertionSort _ l).length_eq

theorem mem_sortDescByScore {l : List SearchResult} {r : SearchResult} :
    r ∈ sortDescByScore l ↔ r ∈ l :=
  (List.perm_insertionSort _ l).mem_iff

theorem length_sortDescByScore (l : List SearchResult) :
    (sortDescByScore l).length = l.length :=
  (List.perm_insertionSort _ l).length_eq

theorem length_sortDescScores (l : List ℝ) : (sortDescScores l).length = l.length :=
  (List.perm_insertionSort _ l).length_eq

theorem sorted_sortDescScores (l : List ℝ) :
    List.Sorted (fun a b : ℝ => b ≤ a) (sortDescScores l) :=
  List.sorted_insertionSort _ l

theorem sortDescScores_perm_congr {C C' : List ℝ} (h : List.Perm C C') :
    sortDescScores C = sortDescScores C' := by
  apply List.eq_of_perm_of_sorted _ (sorted_sortDescScores C) (sorted_sortDescScores C')
  exact (List.perm_insertionSort _ C).trans (h.trans (List.perm_insertionSort _ C').symm)

theorem mapScore_sortDescByScore (l : List SearchResult) :
    ((sortDescByScore l).map (fun r => r.score))
      = sortDescScores (l.map (fun r => r.score)) := by
  apply List.eq_of_perm_of_sorted _ ?_ (sorted_sortDescScores _)
  · exact ((List.perm_insertionSort _ l).map _).trans (List.perm_insertionSort _ _).symm
  · rw [List.Sorted, List.pairwise_map]
    exact List.sorted_insertionSort _ l

theorem sortDescScores_append_dominated {A D : List ℝ}
    (hdom : ∀ x ∈ D, ∀ a ∈ A, x ≤ a) :
    sortDescScores (A ++ D) = sortDescScores A ++ sortDescScores D := by
  apply List.eq_of_perm_of_sorted _ (sorted_sortDescScores _) ?_
  · exact (List.perm_insertionSort _ _).trans
      ((List.perm_insertionSort _ A).symm.append (List.perm_insertionSort _ D).symm)
  · rw [List.Sorted, List.pairwise_append]
    refine ⟨sorted_sortDescScores A, sorted_sortDescScores D, ?_⟩
    intro a ha x hx
    exact hdom x ((List.perm_insertionSort _ D).mem_iff.mp hx)
      a ((List.perm_insertionSort _ A).mem_iff.mp ha)

theorem candidateScores_cons (d : VectorDocument) (ds : List VectorDocument) (q : Vec)
    (minScore : ℝ) :
    candidateScores (d :: ds) q minScore =
      if minScore ≤ cosSimVal q d.embedding
      then cosSimVal q d.embedding :: candidateScores ds q minScore
      else candidateScores ds q minScore := by
  rw [candidateScores, List.map_cons, List.filter_cons, candidateScores]
  by_cases h : minScore ≤ cosSimVal q d.embedding <;> simp [h]

/-- The running-top-K invariant of `search`'s document loop: the held
results stay sorted ascending, together with the dropped scores they are
exactly the candidate scores seen so far, every dropped score is bounded by
every held score, the result count never exceeds `topK` and is exactly
`topK` as soon as anything has been dropped, and every held result is a
stored record with its recomputed score. -/
theorem searchLoop_spec (q : Vec) (topK : Nat) (minScore : ℝ) (hK : 1 ≤ topK) :
    ∀ (ds : List VectorDocument) (res : List SearchResult) (dropped : List ℝ),
      (∀ d ∈ ds, d.embedding.length = q.length) →
      List.Sorted (fun a b => a.score ≤ b.score) res →
      (∀ x ∈ dropped, ∀ r ∈ res, x ≤ r.score) →
      res.length ≤ topK →
      (dropped ≠ [] → res.length = topK) →
      ∃ (res' : List SearchResult) (dropped' : List ℝ),
        searchLoop q topK minScore ds res = .ok res'
        ∧ List.Sorted (fun a b => a.score ≤ b.score) res'
        ∧ ((res'.map (fun r => r.score) : Multiset ℝ) + (dropped' : Multiset ℝ)
            = (res.map (fun r => r.score) : Multiset ℝ) + (dropped : Multiset ℝ)
              + (candidateScores ds q minScore : Multiset ℝ))
        ∧ (∀ x ∈ dropped', ∀ r ∈ res', x ≤ r.score)
        ∧ res'.length ≤ topK
        ∧ (dropped' ≠ [] → res'.length = topK)
        ∧ (∀ r ∈ res', r ∈ res ∨
            ∃ d ∈ ds, r.document = d ∧ r.score = cosSimVal q d.embedding) := by
  intro ds
  induction ds with
  | nil =>
    intro res dropped _ hsort hdom hlen himp
    exact ⟨res, dropped, rfl, hsort, by simp [candidateScores], hdom, hlen, himp,
      fun r hr => Or.inl hr⟩
  | cons d ds ih =>
    intro res dropped hdim hsort hdom hlen himp
    have hcos : cosineSimilarity q d.embedding = .ok (cosSimVal q d.embedding) :=
      cosineSimilarity_of_length_eq (hdim d (List.mem_cons_self d ds)).symm
    have hdim' : ∀ x ∈ ds, x.embedding.length = q.length :=
      fun x hx => hdim x (List.mem_cons_of_mem d hx)
    by_cases hfilter : minScore ≤ cosSimVal q d.embedding
    · by_cases hsize : res.length < topK
      · -- push branch: fewer than topK held, so nothing has been dropped yet
        have hd0 : dropped = [] := by
          by_contra hne
          have := himp hne
          omega
        subst hd0
        obtain ⟨res', dropped', hloop, hsort', heq, hdom', hlen', himp', hprov'⟩ :=
          ih (sortAscByScore (res ++ [⟨d, cosSimVal q d.embedding⟩])) []
            hdim' (sorted_sortAscByScore _)
            (by intro x hx; simp at hx)
            (by rw [length_sortAscByScore, List.length_append]; simp; omega)
            (fun h => absurd rfl h)
        refine ⟨res', dropped', ?_, hsort', ?_, hdom', hlen', himp', ?_⟩
        · simp only [searchLoop, hcos]
          rw [if_pos hfilter, if_pos hsize]
          exact hloop
        · rw [heq, candidateScores_cons, if_pos hfilter,
            Multiset.coe_eq_coe.mpr (mapScore_perm_sortAscByScore _), List.map_append]
          simp only [List.map_cons, List.map_nil, ← Multiset.cons_coe, ← Multiset.coe_add,
            ← Multiset.singleton_add, Multiset.coe_nil, add_zero, zero_add]
          abel
        · intro r hr
          rcases hprov' r hr with hmem | ⟨d', hd', hdoc, hsc⟩
          · rcases List.mem_append.mp (mem_sortAscByScore.mp hmem) with h | h
            · exact Or.inl h
            · right
              refine ⟨d, List.mem_cons_self d ds, ?_, ?_⟩ <;>
                rw [List.mem_singleton.mp h]
          · exact Or.inr ⟨d', List.mem_cons_of_mem d hd', hdoc, hsc⟩
      · obtain ⟨r0, rest, rfl⟩ : ∃ r0 rest, res = r0 :: rest := by
          cases res with
          | nil => exact absurd (by simpa using hK) hsize
          | cons a l => exact ⟨a, l, rfl⟩
        have hfull : (r0 :: rest).length = topK := le_antisymm hlen (not_lt.mp hsize)
        have hr0rest : ∀ t ∈ rest, r0.score ≤ t.score := List.rel_of_sorted_cons hsort
        by_cases hrepl : r0.score < cosSimVal q d.embedding
        · -- replace-min branch
          have hdom2 : ∀ x ∈ dropped ++ [r0.score],
              ∀ r ∈ sortAscByScore (⟨d, cosSimVal q d.embedding⟩ :: rest), x ≤ r.score := by
            intro x hx r hr
            have hx_le_r0 : x ≤ r0.score := by
              rcases List.mem_append.mp hx with h | h
              · exact hdom x h r0 (List.mem_cons_self r0 rest)
              · rw [List.mem_singleton.mp h]
            rcases List.mem_cons.mp (mem_sortAscByScore.mp hr) with rfl | hmem
            · exact le_trans hx_le_r0 (le_of_lt hrepl)
            · exact le_trans hx_le_r0 (hr0rest r hmem)
          have hlen2 :
              (sortAscByScore (⟨d, cosSimVal q d.embedding⟩ :: rest)).length ≤ topK := by
            rw [length_sortAscByScore]
            simp only [List.length_cons]
            simp only [List.length_cons] at hfull
            omega
          have himp2 : dropped ++ [r0.score] ≠ [] →
              (sortAscByScore (⟨d, cosSimVal q d.embedding⟩ :: rest)).length = topK := by
            intro _
            rw [length_sortAscByScore]
            simp only [List.length_cons]
            simp only [List.length_cons] at hfull
            omega
          obtain ⟨res', dropped', hloop, hsort', heq, hdom', hlen', himp', hprov'⟩ :=
            ih (sortAscByScore (⟨d, cosSimVal q d.embedding⟩ :: rest))
              (dropped ++ [r0.score]) hdim' (sorted_sortAscByScore _) hdom2 hlen2 himp2
          refine ⟨res', dropped', ?_, hsort', ?_, hdom', hlen', himp', ?_⟩
          · simp only [searchLoop, hcos]
            rw [if_pos hfilter, if_neg hsize, if_pos hrepl]
            exact hloop
          · rw [heq, candidateScores_cons, if_pos hfilter,
              Multiset.coe_eq_coe.mpr (mapScore_perm_sortAscByScore _)]
            simp only [List.map_cons, ← Multiset.cons_coe, ← Multiset.coe_add,
              ← Multiset.singleton_add, Multiset.coe_singleton, Multiset.coe_nil,
              add_zero, zero_add]
            abel
          · intro r hr
            rcases hprov' r hr with hmem | ⟨d', hd', hdoc, hsc⟩
            · rcases List.mem_cons.mp (mem_sortAscByScore.mp hmem) with h | h
              · right
                refine ⟨d, List.mem_cons_self d ds, ?_, ?_⟩ <;> rw [h]
              · exact Or.inl (List.mem_cons_of_mem r0 h)
            · exact Or.inr ⟨d', List.mem_cons_of_mem d hd', hdoc, hsc⟩
        · -- candidate not better than the held minimum: dropped
          have hdom2 : ∀ x ∈ dropped ++ [cosSimVal q d.embedding],
              ∀ r ∈ r0 :: rest, x ≤ r.score := by
            intro x hx r hr
            rcases List.mem_append.mp hx with h | h
            · exact hdom x h r hr
            · rw [List.mem_singleton.mp h]
              have hs_le : cosSimVal q d.embedding ≤ r0.score := not_lt.mp hrepl
              rcases List.mem_cons.mp hr with rfl | hmem
              · exact hs_le
              · exact le_trans hs_le (hr0rest r hmem)
          obtain ⟨res', dropped', hloop, hsort', heq, hdom', hlen', himp', hprov'⟩ :=
            ih (r0 :: rest) (dropped ++ [cosSimVal q d.embedding]) hdim' hsort
              hdom2 hlen (fun _ => hfull)
          refine ⟨res', dropped', ?_, hsort', ?_, hdom', hlen', himp', ?_⟩
          · simp only [searchLoop, hcos]
            rw [if_pos hfilter, if_neg hsize, if_neg hrepl]
            exact hloop
          · rw [heq, candidateScores_cons, if_pos hfilter]
            simp only [List.map_cons, ← Multiset.cons_coe, ← Multiset.coe_add,
              ← Multiset.singleton_add, Multiset.coe_singleton, Multiset.coe_nil,
              add_zero, zero_add]
            abel
          · intro r hr
            rcases hprov' r hr with hmem | ⟨d', hd', hdoc, hsc⟩
            · exact Or.inl hmem
            · exact Or.inr ⟨d', List.mem_cons_of_mem d hd', hdoc, hsc⟩
    · -- below minScore: skipped entirely
      obtain ⟨res', dropped', hloop, hsort', heq, hdom', hlen', himp', hprov'⟩ :=
        ih res dropped hdim' hsort hdom hlen himp
      refine ⟨res', dropped', ?_, hsort', ?_, hdom', hlen', himp', ?_⟩
      · simp only [searchLoop, hcos]
        rw [if_neg hfilter]
        exact hloop
      · rw [heq, candidateScores_cons, if_neg hfilter]
      · intro r hr
        rcases hprov' r hr with hmem | ⟨d', hd', hdoc, hsc⟩
        · exact Or.inl hmem
        · exact Or.inr ⟨d', List.mem_cons_of_mem d hd', hdoc, hsc⟩

theorem scoreDocs_spec (q : Vec) (minScore : ℝ) :
    ∀ (ds : List VectorDocument), (∀ d ∈ ds, d.embedding.length = q.length) →
      ∃ rs : List SearchResult, scoreDocs q minScore ds = .ok rs
        ∧ rs.map (fun r => r.score) = candidateScores ds q minScore
        ∧ ∀ r ∈ rs, ∃ d ∈ ds, r.document = d ∧ r.score = cosSimVal q d.embedding := by
  intro ds
  induction ds with
  | nil => exact fun _ => ⟨[], rfl, by simp [candidateScores], by simp⟩
  | cons d ds ih =>
    intro hdim
    have hcos : cosineSimilarity q d.embedding = .ok (cosSimVal q d.embedding) :=
      cosineSimilarity_of_length_eq (hdim d (List.mem_cons_self d ds)).symm
    obtain ⟨rs, hsd, hmap, hprov⟩ := ih (fun x hx => hdim x (List.mem_cons_of_mem d hx))
    by_cases hf : minScore ≤ cosSimVal q d.embedding
    · refine ⟨⟨d, cosSimVal q d.embedding⟩ :: rs, ?_, ?_, ?_⟩
      · simp only [scoreDocs, hcos, hsd]
        rw [if_pos hf]
      · rw [List.map_cons, hmap, candidateScores_cons, if_pos hf]
      · intro r hr
        rcases List.mem_cons.mp hr with rfl | hmem
        · exact ⟨d, List.mem_cons_self d ds, rfl, rfl⟩
        · obtain ⟨d', hd', hdoc, hsc⟩ := hprov r hmem
          exact ⟨d', List.mem_cons_of_mem d hd', hdoc, hsc⟩
    · refine ⟨rs, ?_, ?_, ?_⟩
      · simp only [scoreDocs, hcos, hsd]
        rw [if_neg hf]
      · rw [hmap, candidateScores_cons, if_neg hf]
      · intro r hr
        obtain ⟨d', hd', hdoc, hsc⟩ := hprov r hr
        exact ⟨d', List.mem_cons_of_mem d hd', hdoc, hsc⟩

/-- C1 (amended).  For every store content whose embeddings match the query
dimension and every `topK ≥ 1`, `search(q, topK, minScore)` succeeds and
returns exactly `min(topK, M)` results, where `M` is the number of stored
records whose recomputed cosine score is at least `minScore`; the returned
scores are precisely the first `min(topK, M)` entries of the descending
sort of all candidate scores (so the result is a true top-K by brute-force
recomputation, sorted descending), and every returned entry is a stored
record paired with its recomputed score.  The older sort-and-slice
implementation returns the same score list. -/
theorem search_topk (docs : List VectorDocument) (q : Vec) (topK : Nat) (minScore : ℝ)
    (hdim : ∀ d ∈ docs, d.embedding.length = q.length) (hK : 1 ≤ topK) :
    ∃ res : List SearchResult,
      search docs q topK minScore = .ok res
      ∧ res.map (fun r => r.score)
          = (sortDescScores (candidateScores docs q minScore)).take topK
      ∧ res.length = min topK (candidateScores docs q minScore).length
      ∧ List.Sorted (fun a b : ℝ => b ≤ a) (res.map (fun r => r.score))
      ∧ (∀ r ∈ res, ∃ d ∈ docs, r.document = d ∧ r.score = cosSimVal q d.embedding)
      ∧ ∃ res2 : List SearchResult,
          searchOld docs q topK minScore = .ok res2
          ∧ res2.map (fun r => r.score)
              = (sortDescScores (candidateScores docs q minScore)).take topK := by
  obtain ⟨res', dropped', hloop, hsort', heq, hdom', hlen', himp', hprov'⟩ :=
    searchLoop_spec q topK minScore hK docs [] []
      hdim List.sorted_nil (by intro x hx; simp at hx) (by simp) (fun h => absurd rfl h)
  simp only [List.map_nil, Multiset.coe_nil, add_zero, zero_add] at heq
  have hperm : List.Perm ((res'.map (fun r => r.score)) ++ dropped')
      (candidateScores docs q minScore) := by
    apply Multiset.coe_eq_coe.mp
    rw [← Multiset.coe_add]
    exact heq
  have hdomScores : ∀ x ∈ dropped', ∀ a ∈ (res'.map (fun r => r.score)), x ≤ a := by
    intro x hx a ha
    obtain ⟨r, hr, rfl⟩ := List.mem_map.mp ha
    exact hdom' x hx r hr
  have hsortA : List.Sorted (fun a b : ℝ => a ≤ b) (res'.map (fun r => r.score)) := by
    rw [List.Sorted, List.pairwise_map]
    exact hsort'
  have key : sortDescScores (candidateScores docs q minScore)
      = sortDescScores (res'.map (fun r => r.score)) ++ sortDescScores dropped' := by
    rw [sortDescScores_perm_congr hperm.symm, sortDescScores_append_dominated hdomScores]
  have hlenA : (res'.map (fun r => r.score)).length = res'.length := List.length_map _ _
  have htake : (sortDescScores (candidateScores docs q minScore)).take topK
      = sortDescScores (res'.map (fun r => r.score)) := by
    rw [key]
    by_cases hD : dropped' = []
    · subst hD
      rw [show sortDescScores [] = [] from rfl, List.append_nil]
      apply List.take_of_length_le
      rw [length_sortDescScores, hlenA]
      exact hlen'
    · have hfull : res'.length = topK := himp' hD
      have hlen2 : (sortDescScores (res'.map (fun r => r.score))).length = topK := by
        rw [length_sortDescScores, hlenA, hfull]
      rw [← hlen2, List.take_left]
  have hClen : (candidateScores docs q minScore).length = res'.length + dropped'.length := by
    have := hperm.length_eq
    rw [List.length_append, hlenA] at this
    omega
  have hsearch : search docs q topK minScore = .ok (sortDescByScore res') := by
    rw [search, hloop]
    rfl
  refine ⟨sortDescByScore res', hsearch, ?_, ?_, ?_, ?_, ?_⟩
  · rw [mapScore_sortDescByScore, htake]
  · rw [length_sortDescByScore, hClen]
    by_cases hD : dropped' = []
    · subst hD
      simp only [List.length_nil, add_zero]
      omega
    · have hfull : res'.length = topK := himp' hD
      omega
  · rw [mapScore_sortDescByScore]
    exact sorted_sortDescScores _
  · intro r hr
    rcases hprov' r (mem_sortDescByScore.mp hr) with hmem | h
    · simp at hmem
    · exact h
  · obtain ⟨rs, hsd, hmap, _⟩ := scoreDocs_spec q minScore docs hdim
    refine ⟨(sortDescByScore rs).take topK, ?_, ?_⟩
    · rw [searchOld, hsd]
      rfl
    · rw [List.map_take, mapScore_sortDescByScore, hmap]

/-- C1 (counterexample to the claim as stated).  A store of `N = 1` record
whose cosine score against the query is negative: `search(q, 5, 0)`
succeeds but returns 0 results, not `min(5, N) = 1` — candidates below
`minScore` are excluded from the count.  Additionally, with `topK = 0` and
a matching candidate the source crashes reading `results[0].score` of an
empty array. -/
theorem search_topk_counterexample :
    search [⟨"note.md#0", "note.md", 0, "text", [(1 : ℝ)], 0, 0⟩] [(-1 : ℝ)] 5 0 = .ok []
    ∧ (∀ res, search [⟨"note.md#0", "note.md", 0, "text", [(1 : ℝ)], 0, 0⟩]
        [(-1 : ℝ)] 5 0 = .ok res →
        res.length ≠ min 5 ([⟨"note.md#0", "note.md", 0, "text",
          [(1 : ℝ)], 0, 0⟩] : List VectorDocument).length)
    ∧ search [⟨"note.md#0", "note.md", 0, "text", [(1 : ℝ)], 0, 0⟩] [(1 : ℝ)] 0 0
        = .error "TypeError: results[0] is undefined" := by
  have h1 : sumSq [(1 : ℝ)] = 1 := by simp [sumSq]
  have h2 : sumSq [(-1 : ℝ)] = 1 := by norm_num [sumSq]
  have hneg : cosSimVal [(-1 : ℝ)] [(1 : ℝ)] = -1 := by
    rw [cosSimVal_eq, h1, h2, Real.sqrt_one]
    rw [if_neg (by norm_num)]
    norm_num [dotProduct]
  have hpos : cosSimVal [(1 : ℝ)] [(1 : ℝ)] = 1 := by
    rw [cosSimVal_eq, h1, Real.sqrt_one]
    rw [if_neg (by norm_num)]
    norm_num [dotProduct]
  have hrun : search [⟨"note.md#0", "note.md", 0, "text", [(1 : ℝ)], 0, 0⟩]
      [(-1 : ℝ)] 5 0 = .ok [] := by
    have hcos : cosineSimilarity [(-1 : ℝ)]
        (⟨"note.md#0", "note.md", 0, "text", [(1 : ℝ)], 0, 0⟩ : VectorDocument).embedding
        = .ok (-1) := by
      rw [cosineSimilarity_of_length_eq (by simp)]
      rw [show (⟨"note.md#0", "note.md", 0, "text", [(1 : ℝ)], 0, 0⟩ :
        VectorDocument).embedding = [(1 : ℝ)] from rfl, hneg]
    rw [search]
    simp only [searchLoop, hcos]
    rw [if_neg (by norm_num)]
    rfl
  refine ⟨hrun, ?_, ?_⟩
  · intro res h
    rw [hrun] at h
    cases h
    decide
  · have hcos : cosineSimilarity [(1 : ℝ)]
        (⟨"note.md#0", "note.md", 0, "text", [(1 : ℝ)], 0, 0⟩ : VectorDocument).embedding
        = .ok 1 := by
      rw [cosineSimilarity_of_length_eq (by simp)]
      rw [show (⟨"note.md#0", "note.md", 0, "text", [(1 : ℝ)], 0, 0⟩ :
        VectorDocument).embedding = [(1 : ℝ)] from rfl, hpos]
    rw [search]
    simp only [searchLoop, hcos]
    rw [if_pos (by norm_num), if_neg (by omega)]
    rfl

/-- Witness for `search_topk`: a two-record store with a one-dimensional
query, `topK = 1`, `minScore = 0`. -/
theorem search_topk_witness :
    ∃ res : List SearchResult,
      search [⟨"a#0", "a", 0, "x", [(1 : ℝ)], 0, 0⟩,
        ⟨"b#0", "b", 0, "y", [(-1 : ℝ)], 0, 0⟩] [(2 : ℝ)] 1 0 = .ok res
      ∧ res.map (fun r => r.score)
          = (sortDescScores (candidateScores [⟨"a#0", "a", 0, "x", [(1 : ℝ)], 0, 0⟩,
              ⟨"b#0", "b", 0, "y", [(-1 : ℝ)], 0, 0⟩] [(2 : ℝ)] 0)).take 1
      ∧ res.length = min 1 (candidateScores [⟨"a#0", "a", 0, "x", [(1 : ℝ)], 0, 0⟩,
            ⟨"b#0", "b", 0, "y", [(-1 : ℝ)], 0, 0⟩] [(2 : ℝ)] 0).length
      ∧ List.Sorted (fun a b : ℝ => b ≤ a) (res.map (fun r => r.score))
      ∧ (∀ r ∈ res, ∃ d ∈ [⟨"a#0", "a", 0, "x", [(1 : ℝ)], 0, 0⟩,
            ⟨"b#0", "b", 0, "y", [(-1 : ℝ)], 0, 0⟩],
          r.document = d ∧ r.score = cosSimVal [(2 : ℝ)] d.embedding)
      ∧ ∃ res2 : List SearchResult,
          searchOld [⟨"a#0", "a", 0, "x", [(1 : ℝ)], 0, 0⟩,
            ⟨"b#0", "b", 0, "y", [(-1 : ℝ)], 0, 0⟩] [(2 : ℝ)] 1 0 = .ok res2
          ∧ res2.map (fun r => r.score)
              = (sortDescScores (candidateScores [⟨"a#0", "a", 0, "x", [(1 : ℝ)], 0, 0⟩,
                  ⟨"b#0", "b", 0, "y", [(-1 : ℝ)], 0, 0⟩] [(2 : ℝ)] 0)).take 1 := by
  refine search_topk _ _ 1 0 ?_ (by decide)
  intro d hd
  rcases List.mem_cons.mp hd with rfl | hd
  · rfl
  rcases List.mem_cons.mp hd with rfl | hd
  · rfl
  · simp at hd

theorem isErrorB_eq_true {e : Except String ChatResponse} (h : isErrorB e = true) :
    ∃ m, e = .error m := by
  cases e with
  | error m => exact ⟨m, rfl⟩
  | ok r => simp [isErrorB] at h

theorem chatLoop_success (bz : String → Except String ChatResponse) :
    ∀ (l : List EndpointConfig) (k : ℕ) (hk : k < l.length)
      (sts : List ProviderStatus) (le : Option String) (att : List String)
      (resp : ChatResponse),
      (∀ i (hi : i < k), isErrorB (bz (l.get ⟨i, hi.trans hk⟩).id) = true) →
      bz (l.get ⟨k, hk⟩).id = .ok resp →
      chatLoop bz l sts le att =
        (.ok resp,
          applyFailures sts ((l.take k).map (fun p => (p.id, failMsg (bz p.id)))),
          att ++ ((l.take (k + 1)).map (fun p => p.id))) := by
  intro l
  induction l with
  | nil => intro k hk; exact absurd hk (by simp)
  | cons p rest ih =>
    intro k hk sts le att resp hfail hsucc
    cases k with
    | zero =>
      simp only [List.get] at hsucc
      simp only [chatLoop, hsucc, List.take_zero, List.map_nil, applyFailures,
        List.take_succ_cons, List.take_zero, List.map_cons, List.map_nil]
    | succ k' =>
      have h0 : isErrorB (bz p.id) = true := hfail 0 (Nat.succ_pos k')
      obtain ⟨m, hm⟩ := isErrorB_eq_true h0
      have hk' : k' < rest.length := Nat.succ_lt_succ_iff.mp hk
      have hcall := ih k' hk' (updateStatus sts p.id m) (some m) (att ++ [p.id]) resp
        (fun i hi => hfail (i + 1) (Nat.succ_lt_succ hi))
        hsucc
      simp only [chatLoop, hm, hcall, List.take_succ_cons, List.map_cons, applyFailures,
        failMsg]
      simp

theorem chatLoop_allFail (bz : String → Except String ChatResponse) :
    ∀ (l : List EndpointConfig) (hne : l ≠ []) (sts : List ProviderStatus)
      (le : Option String) (att : List String),
      (∀ p ∈ l, isErrorB (bz p.id) = true) →
      chatLoop bz l sts le att =
        (.error ("All providers failed. Last error: " ++ failMsg (bz (l.getLast hne).id)),
          applyFailures sts (l.map (fun p => (p.id, failMsg (bz p.id)))),
          att ++ l.map (fun p => p.id)) := by
  intro l
  induction l with
  | nil => intro hne; exact absurd rfl hne
  | cons p rest ih =>
    intro hne sts le att hfail
    obtain ⟨m, hm⟩ := isErrorB_eq_true (hfail p (List.mem_cons_self p rest))
    cases rest with
    | nil =>
      simp only [chatLoop, hm, List.getLast, List.map_cons, List.map_nil, applyFailures,
        failMsg]
      simp
    | cons q rest' =>
      have hcall := ih (by simp) (updateStatus sts p.id m) (some m) (att ++ [p.id])
        (fun x hx => hfail x (List.mem_cons_of_mem p hx))
      have hstep : chatLoop bz (p :: q :: rest') sts le att =
          chatLoop bz (q :: rest') (updateStatus sts p.id m) (some m) (att ++ [p.id]) := by
        rw [chatLoop, hm]
      have hfm : failMsg (bz p.id) = m := by rw [hm]; rfl
      rw [hstep, hcall]
      simp only [List.map_cons, applyFailures, hfm,
        List.getLast_cons (List.cons_ne_nil q rest')]
      simp

theorem statusFor_updateStatus (sts : List ProviderStatus) (id id2 : String) (m : String) :
    statusFor (updateStatus sts id m) id2 =
      if id2 = id then
        (statusFor sts id2).map (fun st => { st with healthy := false, error := some m })
      else statusFor sts id2 := by
  induction sts with
  | nil => by_cases h : id2 = id <;> simp [statusFor, updateStatus, h]
  | cons st rest ih =>
    show List.find? (fun x => x.id = id2)
        ((if st.id = id then { st with healthy := false, error := some m } else st)
          :: updateStatus rest id m) = _
    have htail : List.find? (fun x => x.id = id2) (updateStatus rest id m) =
        statusFor (updateStatus rest id m) id2 := rfl
    by_cases hid : st.id = id
    · rw [if_pos hid]
      by_cases h2 : st.id = id2
      · have hq : id2 = id := h2.symm.trans hid
        rw [List.find?_cons_of_pos _ (by simp [h2]), if_pos hq, statusFor,
          List.find?_cons_of_pos _ (by simp [h2])]
        rfl
      · have hq : ¬ id2 = id := fun h => h2 (hid.trans h.symm)
        have hskip : statusFor (st :: rest) id2 = statusFor rest id2 := by
          rw [statusFor, statusFor]
          exact List.find?_cons_of_neg _ (by simp [h2])
        rw [List.find?_cons_of_neg _ (by simp [h2]), htail, ih, if_neg hq, if_neg hq, hskip]
    · rw [if_neg hid]
      by_cases h2 : st.id = id2
      · have hq : ¬ id2 = id := fun h => hid (h2.trans h)
        rw [List.find?_cons_of_pos _ (by simp [h2]), if_neg hq, statusFor,
          List.find?_cons_of_pos _ (by simp [h2])]
      · have hskip : statusFor (st :: rest) id2 = statusFor rest id2 := by
          rw [statusFor, statusFor]
          exact List.find?_cons_of_neg _ (by simp [h2])
        rw [List.find?_cons_of_neg _ (by simp [h2]), htail, ih, hskip]

theorem statusFor_applyFailures_stays_false
    (idq : String) :
    ∀ (fs : List (String × String)) (sts : List ProviderStatus),
      (∀ st, statusFor sts idq = some st → st.healthy = false) →
      (∀ st, statusFor (applyFailures sts fs) idq = some st → st.healthy = false) := by
  intro fs
  induction fs with
  | nil => intro sts h; exact h
  | cons f rest ih =>
    intro sts h
    obtain ⟨fid, m⟩ := f
    apply ih
    intro st hst
    rw [statusFor_updateStatus] at hst
    by_cases hq : idq = fid
    · rw [if_pos hq] at hst
      obtain ⟨st0, _, rfl⟩ := Option.map_eq_some'.mp hst
      rfl
    · rw [if_neg hq] at hst
      exact h st hst

theorem statusFor_applyFailures_marked
    (idq : String) :
    ∀ (fs : List (String × String)) (sts : List ProviderStatus),
      idq ∈ fs.map Prod.fst →
      (∀ st, statusFor (applyFailures sts fs) idq = some st → st.healthy = false) := by
  intro fs
  induction fs with
  | nil => intro sts h; simp at h
  | cons f rest ih =>
    intro sts hmem
    obtain ⟨fid, m⟩ := f
    by_cases hq : idq = fid
    · refine statusFor_applyFailures_stays_false idq rest (updateStatus sts fid m) ?_
      intro st hst
      rw [statusFor_updateStatus, if_pos hq] at hst
      obtain ⟨st0, _, rfl⟩ := Option.map_eq_some'.mp hst
      rfl
    · refine ih (updateStatus sts fid m) ?_
      rw [List.map_cons] at hmem
      exact (List.mem_cons.mp hmem).resolve_left hq

theorem statusFor_applyFailures_isSome (idq : String) :
    ∀ (fs : List (String × String)) (sts : List ProviderStatus),
      (statusFor (applyFailures sts fs) idq).isSome = (statusFor sts idq).isSome := by
  intro fs
  induction fs with
  | nil => intro sts; rfl
  | cons f rest ih =>
    intro sts
    obtain ⟨fid, m⟩ := f
    rw [applyFailures, ih, statusFor_updateStatus]
    by_cases hq : idq = fid
    · rw [if_pos hq]
      cases statusFor sts idq <;> rfl
    · rw [if_neg hq]

theorem mem_enabled_of_mem_getSortedProviders {s : ProviderSettings} {p : EndpointConfig}
    (h : p ∈ getSortedProviders s) : p ∈ s.endpoints.filter (fun e => e.enabled) := by
  obtain ⟨c, _, hc⟩ := List.mem_filterMap.mp h
  have := List.mem_of_find?_eq_some hc
  exact List.mem_reverse.mp this

theorem statusFor_initStatuses_isSome {s : ProviderSettings} {p : EndpointConfig}
    (h : p ∈ getSortedProviders s) :
    (statusFor (initStatuses s) p.id).isSome = true := by
  have hmem := mem_enabled_of_mem_getSortedProviders h
  rw [statusFor, List.find?_isSome]
  exact ⟨⟨p.id, p.name, true, none⟩, List.mem_map.mpr ⟨p, hmem, rfl⟩, by simp⟩

/-- For a list whose member ids are distinct, `find?` by the id of a member
returns that member itself. -/
theorem find_by_id_of_nodup :
    ∀ (l : List EndpointConfig), ((l.map (fun e => e.id)).Nodup) →
      ∀ c ∈ l, l.find? (fun e => e.id = c.id) = some c := by
  intro l
  induction l with
  | nil => intro _ c hc; simp at hc
  | cons d t ih =>
    intro hnd c hc
    rw [List.map_cons, List.nodup_cons] at hnd
    by_cases hd : d.id = c.id
    · have hcd : c = d := by
        rcases List.mem_cons.mp hc with h | h
        · exact h
        · exact absurd (hd ▸ List.mem_map.mpr ⟨c, h, rfl⟩) hnd.1
      rw [List.find?_cons_of_pos _ (by simp [hd]), hcd]
    · have hct : c ∈ t := by
        rcases List.mem_cons.mp hc with h | h
        · exact absurd (h ▸ rfl) hd
        · exact h
      rw [List.find?_cons_of_neg _ (by simp [hd])]
      exact ih hnd.2 c hct

theorem providerFor_of_nodup {s : ProviderSettings}
    (hnd : ((s.endpoints.filter (fun e => e.enabled)).map (fun e => e.id)).Nodup)
    {c : EndpointConfig} (hc : c ∈ s.endpoints.filter (fun e => e.enabled)) :
    providerFor s c.id = some c := by
  rw [providerFor]
  exact find_by_id_of_nodup _ (by simpa using hnd) c (List.mem_reverse.mpr hc)

theorem getSortedProviders_of_nodup {s : ProviderSettings}
    (hnd : ((s.endpoints.filter (fun e => e.enabled)).map (fun e => e.id)).Nodup) :
    getSortedProviders s =
      (s.endpoints.filter (fun e => e.enabled)).insertionSort
        (fun a b => a.priority ≤ b.priority) := by
  rw [getSortedProviders]
  have hmem : ∀ c ∈ (s.endpoints.filter (fun e => e.enabled)).insertionSort
      (fun a b => a.priority ≤ b.priority), providerFor s c.id = some c := by
    intro c hc
    exact providerFor_of_nodup hnd
      ((List.perm_insertionSort _ _).mem_iff.mp hc)
  generalize hL : (s.endpoints.filter (fun e => e.enabled)).insertionSort
      (fun a b => a.priority ≤ b.priority) = L at hmem ⊢
  clear hL
  induction L with
  | nil => rfl
  | cons c t ih =>
    rw [List.filterMap_cons, hmem c (List.mem_cons_self c t),
      ih (fun x hx => hmem x (List.mem_cons_of_mem c hx))]

/-- C8. `ProviderManager.chat` failover: endpoints are tried in ascending
priority order (the tried list is sorted by priority when endpoint ids are
distinct); if the first `k` providers fail and provider `k` succeeds, the
call returns provider `k`'s response, attempts exactly the first `k + 1`
endpoints (short-circuiting the rest), and marks each of the first `k`
unhealthy in the status map; if every provider fails, it throws a single
aggregated error naming the last failure. -/
theorem providerManager_chat_failover (s : ProviderSettings)
    (bz : String → Except String ChatResponse) :
    (((s.endpoints.filter (fun e => e.enabled)).map (fun e => e.id)).Nodup →
      (getSortedProviders s).Sorted (fun a b => a.priority ≤ b.priority))
    ∧ (∀ (k : ℕ) (hk : k < (getSortedProviders s).length) (resp : ChatResponse),
        (∀ i (hi : i < k),
          isErrorB (bz ((getSortedProviders s).get ⟨i, hi.trans hk⟩).id) = true) →
        bz ((getSortedProviders s).get ⟨k, hk⟩).id = .ok resp →
        (chat s bz).1 = .ok resp ∧
        (chat s bz).2.2 = ((getSortedProviders s).take (k + 1)).map (fun p => p.id) ∧
        (∀ i (hi : i < k),
          (statusFor (chat s bz).2.1
              ((getSortedProviders s).get ⟨i, hi.trans hk⟩).id).isSome = true ∧
          ∀ st, statusFor (chat s bz).2.1
              ((getSortedProviders s).get ⟨i, hi.trans hk⟩).id = some st →
            st.healthy = false))
    ∧ (∀ (hne : getSortedProviders s ≠ []),
        (∀ p ∈ getSortedProviders s, isErrorB (bz p.id) = true) →
        (chat s bz).1 = .error ("All providers failed. Last error: " ++
          failMsg (bz ((getSortedProviders s).getLast hne).id))) := by
  refine ⟨?_, ?_, ?_⟩
  · intro hnd
    rw [getSortedProviders_of_nodup hnd]
    exact List.sorted_insertionSort _ _
  · intro k hk resp hfail hsucc
    have hne : ¬ (getSortedProviders s).length = 0 := by
      intro h
      rw [h] at hk
      exact Nat.not_lt_zero k hk
    have hloop := chatLoop_success bz (getSortedProviders s) k hk (initStatuses s) none []
      resp hfail hsucc
    have hchat : chat s bz = chatLoop bz (getSortedProviders s) (initStatuses s) none [] := by
      rw [chat, if_neg hne]
    refine ⟨by rw [hchat, hloop], by rw [hchat, hloop]; simp, ?_⟩
    intro i hi
    set pid := ((getSortedProviders s).get ⟨i, hi.trans hk⟩).id with hpid
    have hmemstatus : (statusFor (initStatuses s) pid).isSome = true :=
      statusFor_initStatuses_isSome (List.get_mem _ _ _)
    constructor
    · rw [hchat, hloop]
      simpa [statusFor_applyFailures_isSome] using hmemstatus
    · intro st hst
      rw [hchat, hloop] at hst
      refine statusFor_applyFailures_marked pid _ _ ?_ st hst
      rw [List.map_map]
      refine List.mem_map.mpr ⟨(getSortedProviders s).get ⟨i, hi.trans hk⟩, ?_, rfl⟩
      rw [List.mem_take_iff_getElem]
      exact ⟨i, by omega, by simp⟩
  · intro hne hfail
    have hlen : ¬ (getSortedProviders s).length = 0 := by
      simpa [List.length_eq_zero] using hne
    have hloop := chatLoop_allFail bz (getSortedProviders s) hne (initStatuses s) none [] hfail
    rw [chat, if_neg hlen, hloop]

/-- Witness for `providerManager_chat_failover`: three enabled endpoints
with priorities 1, 2, 3; the first two fail with connection errors and the
third succeeds. -/
theorem providerManager_chat_failover_witness :
    (chat ⟨[⟨"e1", "one", true, 1⟩, ⟨"e2", "two", true, 2⟩, ⟨"e3", "three", true, 3⟩]⟩
      (fun id => if id = "e3" then .ok ⟨"hi"⟩ else .error "CONNECTION_FAILED")).1 =
      .ok ⟨"hi"⟩ := by
  have h := (providerManager_chat_failover
    ⟨[⟨"e1", "one", true, 1⟩, ⟨"e2", "two", true, 2⟩, ⟨"e3", "three", true, 3⟩]⟩
    (fun id => if id = "e3" then .ok ⟨"hi"⟩ else .error "CONNECTION_FAILED")).2.1
    2 (by decide) ⟨"hi"⟩ (by decide) (by decide)
  exact h.1

/-- C7. Three consecutive connection-classified indexing failures trip the
circuit breaker (and processing stops right there); while the breaker is
open `queueFile` drops new paths unchanged and `processIndexQueue` clears
the pending queue and attempts no network call; `resetCircuitBreaker` and a
settings update close the breaker and zero the counter; a successful index
resets the consecutive-failure counter to 0. -/
theorem circuit_breaker_behaviour
    (settings : EmbedSettings) (excl : String → Bool) (hasProvider isMobile : Bool)
    (outcome : String → FileOutcome) (st : EmbedState)
    (p p1 p2 p3 : String) (rest : List String) (m1 m2 m3 : String) :
    (st.isIndexing = false → st.circuitBroken = false → st.consecutiveErrors = 0 →
      st.indexQueue = p1 :: p2 :: p3 :: rest →
      outcome p1 = .failure m1 → outcome p2 = .failure m2 → outcome p3 = .failure m3 →
      isConnectionError m1 = true → isConnectionError m2 = true →
      isConnectionError m3 = true →
      (processIndexQueue outcome st).1.circuitBroken = true ∧
      (processIndexQueue outcome st).2 = [p1, p2, p3])
    ∧ (st.circuitBroken = true →
        queueFile settings excl hasProvider isMobile st p = st)
    ∧ (st.circuitBroken = true →
        (processIndexQueue outcome st).2 = [] ∧
        (processIndexQueue outcome st).1 =
          if st.isIndexing ∨ st.indexQueue = [] then st else { st with indexQueue := [] })
    ∧ ((resetCircuitBreaker st).circuitBroken = false
        ∧ (resetCircuitBreaker st).consecutiveErrors = 0
        ∧ (updateSettingsReset st).circuitBroken = false
        ∧ (updateSettingsReset st).consecutiveErrors = 0)
    ∧ (∀ (q : String) (qs : List String) (st2 : EmbedState) (att : List String),
        st2.circuitBroken = false → outcome q = .success →
        processLoop outcome (q :: qs) st2 att =
          processLoop outcome qs { st2 with consecutiveErrors := 0 } (att ++ [q])) := by
  refine ⟨?_, ?_, ?_, ?_, ?_⟩
  · intro hidle hcb hce hq ho1 ho2 ho3 hc1 hc2 hc3
    have hne : ¬ (st.isIndexing ∨ st.indexQueue = []) := by
      simp [hidle, hq]
    rw [processIndexQueue, if_neg hne, if_neg (by simp [hcb])]
    simp only [hq]
    rw [processLoop, if_neg (by simp [hcb]), ho1]
    simp only [hc1, if_true, hce]
    rw [if_neg (by simp [maxConsecutiveErrors])]
    rw [processLoop, if_neg (by simp [hcb]), ho2]
    simp only [hc2, if_true]
    rw [if_neg (by simp [maxConsecutiveErrors])]
    rw [processLoop, if_neg (by simp [hcb]), ho3]
    simp only [hc3, if_true]
    rw [if_pos (by simp [maxConsecutiveErrors])]
    simp
  · intro hcb
    rw [queueFile]
    by_cases h1 : ¬settings.enableEmbedding
    · rw [if_pos h1]
    · rw [if_neg h1]
      by_cases h2 : excl p = true
      · rw [if_pos h2]
      · rw [if_neg h2, if_pos (by simp [hcb])]
  · intro hcb
    by_cases hcase : st.isIndexing ∨ st.indexQueue = [] <;>
      simp [processIndexQueue, hcb, hcase]
  · exact ⟨rfl, rfl, rfl, rfl⟩
  · intro q qs st2 att h2 hsucc
    rw [processLoop, if_neg (by simp [h2]), hsucc]

/-- Witness for `circuit_breaker_behaviour`: a queue of three paths whose
indexing attempts all fail with `ECONNREFUSED`. -/
theorem circuit_breaker_behaviour_witness :
    (processIndexQueue (fun _ => .failure "ECONNREFUSED")
        ⟨["a", "b", "c"], false, 0, false⟩).1.circuitBroken = true ∧
    (processIndexQueue (fun _ => .failure "ECONNREFUSED")
        ⟨["a", "b", "c"], false, 0, false⟩).2 = ["a", "b", "c"] ∧
    queueFile ⟨true, true⟩ (fun _ => false) true false
        ⟨["x"], false, 3, true⟩ "y" = ⟨["x"], false, 3, true⟩ := by
  have h := circuit_breaker_behaviour ⟨true, true⟩ (fun _ => false) true false
    (fun _ => .failure "ECONNREFUSED") ⟨["a", "b", "c"], false, 0, false⟩
    "y" "a" "b" "c" [] "ECONNREFUSED" "ECONNREFUSED" "ECONNREFUSED"
  have ha := h.1 rfl rfl rfl rfl rfl rfl rfl (by decide) (by decide) (by decide)
  have hb := (circuit_breaker_behaviour ⟨true, true⟩ (fun _ => false) true false
    (fun _ => .failure "ECONNREFUSED") ⟨["x"], false, 3, true⟩
    "y" "a" "b" "c" [] "m" "m" "m").2.1 rfl
  exact ⟨ha.1, ha.2, hb⟩

theorem lt_computeEndPos (text : JStr) (chunkSize minChunkSize s : Nat)
    (h1 : 1 ≤ chunkSize) (hs : s < text.length) :
    s < computeEndPos text chunkSize minChunkSize s := by
  simp only [computeEndPos]
  split_ifs <;> omega

theorem lt_nextStart {s e : Nat} (overlap : Nat) (hse : s < e) :
    s < nextStart s e overlap := by
  unfold nextStart
  split_ifs <;> omega

theorem chunkSectionLoop_total (text : JStr) (chunkSize overlap minChunkSize : Nat)
    (hcs : 1 ≤ chunkSize) :
    ∀ (n s : Nat) (last : Option Nat) (chunks : List PreChunk),
      text.length - s ≤ n → last ≠ some s →
      ∃ r, ∀ fuel, text.length - s < fuel →
        chunkSectionLoop text chunkSize overlap minChunkSize fuel s last chunks =
          some (r, false) := by
  intro n
  induction n with
  | zero =>
    intro s last chunks hle _
    refine ⟨chunks, ?_⟩
    intro fuel hfuel
    match fuel with
    | f + 1 =>
      simp only [chunkSectionLoop]
      rw [if_neg (by omega)]
  | succ n ih =>
    intro s last chunks hle hlast
    by_cases hs : s < text.length
    · have hse : s < computeEndPos text chunkSize minChunkSize s :=
        lt_computeEndPos text chunkSize minChunkSize s hcs hs
      by_cases hend : text.length ≤ computeEndPos text chunkSize minChunkSize s
      · refine ⟨pushChunk text minChunkSize s
          (computeEndPos text chunkSize minChunkSize s) chunks, ?_⟩
        intro fuel hfuel
        match fuel with
        | f + 1 =>
          simp only [chunkSectionLoop]
          rw [if_pos hs, if_neg hlast, if_pos hend]
      · have hadv : s < nextStart s (computeEndPos text chunkSize minChunkSize s) overlap :=
          lt_nextStart overlap hse
        obtain ⟨r, hr⟩ := ih (nextStart s (computeEndPos text chunkSize minChunkSize s) overlap)
          (some s)
          (pushChunk text minChunkSize s (computeEndPos text chunkSize minChunkSize s) chunks)
          (by omega)
          (fun h => absurd (Option.some.inj h) (by omega))
        refine ⟨r, ?_⟩
        intro fuel hfuel
        match fuel with
        | f + 1 =>
          simp only [chunkSectionLoop]
          rw [if_pos hs, if_neg hlast, if_neg hend]
          exact hr f (by omega)
    · refine ⟨chunks, ?_⟩
      intro fuel hfuel
      match fuel with
      | f + 1 =>
        simp only [chunkSectionLoop]
        rw [if_neg hs]

/-- C5. For `overlap < chunkSize`, every iteration of `chunkSection`'s loop
strictly advances `startPos` (using the raw chunk end as the next start
whenever `endPos - overlap` would not advance past it), and the loop
finishes within `length + 1` iterations — any fuel above `text.length`
yields the same result, with the in-source infinite-loop guard never
firing and `chunkSection` returning that fixed result. -/
theorem chunkSection_terminates (text : JStr) (chunkSize overlap minChunkSize : Nat)
    (hlt : overlap < chunkSize) :
    (∀ s, s < text.length →
      s < nextStart s (computeEndPos text chunkSize minChunkSize s) overlap)
    ∧ ∃ r, (∀ fuel, text.length < fuel →
        chunkSectionLoop text chunkSize overlap minChunkSize fuel 0 none [] =
          some (r, false))
      ∧ (chunkSize < text.length →
          chunkSection text chunkSize overlap minChunkSize = r) := by
  have hcs : 1 ≤ chunkSize := by omega
  constructor
  · intro s hs
    exact lt_nextStart overlap (lt_computeEndPos text chunkSize minChunkSize s hcs hs)
  · obtain ⟨r, hr⟩ := chunkSectionLoop_total text chunkSize overlap minChunkSize hcs
      text.length 0 none [] (by omega) (by simp)
    refine ⟨r, fun fuel hfuel => hr fuel (by omega), fun hbig => ?_⟩
    rw [chunkSection, if_neg (by omega), hr (2 * text.length + 2) (by omega)]

/-- Witness for `chunkSection_terminates` at a 10-character text with
`chunkSize = 4`, `overlap = 1`, `minChunkSize = 2`. -/
theorem chunkSection_terminates_witness :
    (∀ s, s < ("abcdefghij".toList).length →
      s < nextStart s (computeEndPos "abcdefghij".toList 4 2 s) 1)
    ∧ ∃ r, (∀ fuel, ("abcdefghij".toList).length < fuel →
        chunkSectionLoop "abcdefghij".toList 4 1 2 fuel 0 none [] = some (r, false))
      ∧ (4 < ("abcdefghij".toList).length →
          chunkSection "abcdefghij".toList 4 1 2 = r) :=
  chunkSection_terminates "abcdefghij".toList 4 1 2 (by decide)

theorem jsTrim_eq_nil_iff (s : JStr) :
    jsTrim s = [] ↔ ∀ c ∈ s, isJsWhitespace c = true := by
  unfold jsTrim
  rw [List.reverse_eq_nil_iff, List.dropWhile_eq_nil_iff]
  constructor
  · intro h c hc
    rcases (List.takeWhile_append_dropWhile (p := isJsWhitespace) (l := s)) ▸ hc with hmem
    rcases List.mem_append.mp hmem with h1 | h1
    · exact List.mem_takeWhile_imp h1
    · exact h c (List.mem_reverse.mpr h1)
  · intro h c hc
    exact h c ((List.dropWhile_sublist _).subset (List.mem_reverse.mp hc))

/-- C10. `chunkText` returns `[]` exactly for empty or all-whitespace
input; for any other input whose cleaned text fits in `chunkSize` it
returns exactly one chunk spanning the whole cleaned text. -/
theorem chunkText_small_input (text : JStr) (chunkSize overlap minChunkSize : Nat)
    (respectHeaders : Bool) :
    ((text.length = 0 ∨ ∀ c ∈ text, isJsWhitespace c = true) →
      chunkText text chunkSize overlap minChunkSize respectHeaders = [])
    ∧ (text.length ≠ 0 → ¬ (∀ c ∈ text, isJsWhitespace c = true) →
        (cleanText text).length ≤ chunkSize →
        chunkText text chunkSize overlap minChunkSize respectHeaders =
          [⟨cleanText text, 0, (cleanText text).length, 0⟩]) := by
  constructor
  · intro h
    rw [chunkText, if_pos ?_]
    rcases h with h | h
    · exact Or.inl h
    · exact Or.inr (by rw [List.length_eq_zero, jsTrim_eq_nil_iff]; exact h)
  · intro hne hws hsize
    rw [chunkText, if_neg ?_, if_pos hsize]
    rintro (h | h)
    · exact hne h
    · exact hws ((jsTrim_eq_nil_iff text).mp (List.length_eq_zero.mp h))

/-- Witness for `chunkText_small_input`: the all-whitespace input
`"  \n "` yields `[]`, and `"hi there"` with `chunkSize = 1000` yields one
chunk spanning its cleaned text. -/
theorem chunkText_small_input_witness :
    chunkText "  \n ".toList 1000 200 100 true = [] ∧
    chunkText "hi there".toList 1000 200 100 true =
      [⟨cleanText "hi there".toList, 0, (cleanText "hi there".toList).length, 0⟩] :=
  ⟨(chunkText_small_input "  \n ".toList 1000 200 100 true).1 (Or.inr (by decide)),
   (chunkText_small_input "hi there".toList 1000 200 100 true).2 (by decide) (by decide)
     (by decide)⟩

theorem dotdot_infix_reverse {s : JStr} (h : dotdot <:+: s) : dotdot <:+: s.reverse := by
  have h2 := List.reverse_infix.mpr h
  exact h2

theorem infix_dropWhile {p : Char → Bool} (hp : p '.' = false) {s : JStr}
    (h : dotdot <:+: s) : dotdot <:+: s.dropWhile p := by
  induction s with
  | nil => simpa using h
  | cons a t ih =>
    rcases List.infix_cons_iff.mp h with hpre | ht
    · obtain ⟨u, hu⟩ := hpre
      have hu2 : ('.' : Char) :: '.' :: u = a :: t := hu
      obtain ⟨ha, ht2⟩ := List.cons.inj hu2
      subst ha
      rw [List.dropWhile_cons, hp]
      simpa using h
    · have h2 := ih ht
      rw [List.dropWhile_cons]
      by_cases hpa : p a = true
      · simp only [hpa, if_true]
        exact h2
      · simp only [hpa]
        simp only [Bool.false_eq_true, if_false]
        exact List.infix_cons_iff.mpr (Or.inr ht)

/-- `..` survives a two-sided `dropWhile` whose predicate rejects dots. -/
theorem dotdot_infix_dropEnds {p : Char → Bool} (hp : p '.' = false) {s : JStr}
    (h : dotdot <:+: s) : dotdot <:+: ((s.dropWhile p).reverse.dropWhile p).reverse :=
  dotdot_infix_reverse (infix_dropWhile hp (dotdot_infix_reverse (infix_dropWhile hp h)))

theorem dotdot_infix_filter {p : Char → Bool} (hp : p '.' = true) {s : JStr}
    (h : dotdot <:+: s) : dotdot <:+: s.filter p := by
  rcases h with ⟨a, b, hab⟩
  refine ⟨a.filter p, b.filter p, ?_⟩
  rw [← hab]
  simp [List.filter_append, List.filter_cons, hp, dotdot]

theorem dotdot_infix_map {g : Char → Char} (hg : g '.' = '.') {s : JStr}
    (h : dotdot <:+: s) : dotdot <:+: s.map g := by
  rcases h with ⟨a, b, hab⟩
  refine ⟨a.map g, b.map g, ?_⟩
  rw [← hab]
  simp [hg, dotdot]

theorem collapseSlashes_cons_ne {c : Char} (hc : ¬ c = '/') (u : JStr) :
    collapseSlashes (c :: u) = c :: collapseSlashes u := by
  cases u with
  | nil => rfl
  | cons d r =>
    show collapseSlashes (c :: d :: r) = c :: collapseSlashes (d :: r)
    simp only [collapseSlashes]
    rw [if_neg (fun hand => hc hand.1)]

theorem dotdot_infix_collapseSlashes {s : JStr} (h : dotdot <:+: s) :
    dotdot <:+: collapseSlashes s := by
  induction s with
  | nil => simp [dotdot] at h
  | cons a t ih =>
    rcases List.infix_cons_iff.mp h with hpre | ht
    · obtain ⟨u, hu⟩ := hpre
      have hu2 : ('.' : Char) :: '.' :: u = a :: t := hu
      obtain ⟨ha, ht2⟩ := List.cons.inj hu2
      subst ha
      subst ht2
      rw [collapseSlashes_cons_ne (by decide), collapseSlashes_cons_ne (by decide)]
      exact ⟨[], collapseSlashes u, rfl⟩
    · have h2 := ih ht
      cases t with
      | nil => simp [dotdot] at ht
      | cons d r =>
        by_cases had : a = '/' ∧ d = '/'
        · have he : collapseSlashes (a :: d :: r) = collapseSlashes (d :: r) := by
            simp only [collapseSlashes]
            rw [if_pos had]
          rw [he]
          exact h2
        · have he : collapseSlashes (a :: d :: r) = a :: collapseSlashes (d :: r) := by
            simp only [collapseSlashes]
            rw [if_neg had]
          rw [he]
          exact List.infix_cons_iff.mpr (Or.inr h2)

/-- `sanitizePath` rejects every input containing `..` (the `..` survives
each rewriting stage, so the final guard fires). -/
theorem sanitizePath_dotdot {p : JStr} (h : dotdot <:+: p) :
    sanitizePath p = .error ("Invalid path: \"".toList ++ p
      ++ "\" attempts to access files outside the vault".toList) := by
  simp only [sanitizePath]
  split_ifs with hc
  · rfl
  · exact absurd (Or.inl (decide_eq_true (dotdot_infix_dropEnds (by decide)
      (dotdot_infix_collapseSlashes (dotdot_infix_map (by decide)
        (dotdot_infix_collapseSlashes (dotdot_infix_filter (by decide)
          (dotdot_infix_dropEnds (by decide)
            (dotdot_infix_dropEnds (by decide) h))))))))) hc

theorem afterLastSlash_suffix (p : JStr) : afterLastSlash p <:+ p := by
  have h := List.reverse_suffix.mpr
    (List.takeWhile_prefix (l := p.reverse) (fun c => decide ¬ c = '/'))
  rw [List.reverse_reverse] at h
  exact h

theorem baseNameOf_within (p : JStr) : baseNameOf p <:+: p := by
  simp only [baseNameOf]
  split_ifs with hmd
  · exact ((List.take_prefix _ _).isInfix).trans (afterLastSlash_suffix p).isInfix
  · exact (afterLastSlash_suffix p).isInfix

theorem toLower_eq_low {c d : Char} (hd : d.toNat < 97) (h : Char.toLower c = d) : c = d := by
  unfold Char.toLower at h
  simp only [] at h
  by_cases hr : c.toNat ≥ 65 ∧ c.toNat ≤ 90
  · rw [if_pos hr] at h
    exfalso
    obtain ⟨h1, h2⟩ := hr
    subst h
    revert hd
    generalize c.toNat = n at h1 h2
    interval_cases n <;> decide
  · rwa [if_neg hr] at h

theorem map_toLower_eq_dotdot {m : JStr} (h : m.map Char.toLower = dotdot) : m = dotdot := by
  match m, h with
  | [], h => simp [dotdot] at h
  | [x], h => simp [dotdot] at h
  | x :: y :: rest, h =>
    simp only [dotdot, List.map_cons, List.cons.injEq] at h
    obtain ⟨hx, hy, hr⟩ := h
    have hr2 : rest = [] := List.map_eq_nil_iff.mp hr
    have hx2 : x = '.' := toLower_eq_low (by decide) hx
    have hy2 : y = '.' := toLower_eq_low (by decide) hy
    rw [hx2, hy2, hr2]
    rfl

/-- Lower-casing cannot manufacture `..`: if the lower-cased string
contains it, so did the original. -/
theorem dotdot_toLower_elim {s : JStr} (h : dotdot <:+: s.map Char.toLower) :
    dotdot <:+: s := by
  rcases h with ⟨a, b, hab⟩
  have hab2 : s.map Char.toLower = a ++ (dotdot ++ b) := by
    rw [← List.append_assoc]
    exact hab.symm
  rw [List.map_eq_append_iff] at hab2
  obtain ⟨s1, s2, hs, h1, h2⟩ := hab2
  rw [List.map_eq_append_iff] at h2
  obtain ⟨s3, s4, hs2, h3, h4⟩ := h2
  have h5 : s3 = dotdot := map_toLower_eq_dotdot h3
  exact ⟨s1, s4, by rw [hs, hs2, h5, List.append_assoc]⟩

theorem getAbstractFileByPath_none (v : Vault) (hv : wfVault v) (p : JStr)
    (hp : dotdot <:+: p) : getAbstractFileByPath v p = none := by
  unfold getAbstractFileByPath
  have h1 : v.files.find? (fun f => f.path = p) = none :=
    List.find?_eq_none.mpr (fun f hf => by
      simp only [decide_eq_true_eq]
      intro h
      exact hv.1 f hf (h ▸ hp))
  rw [h1]
  have h2 : p ∉ v.folders := fun hmem => hv.2 p hmem hp
  dsimp only
  rw [if_neg h2]

/-- Every `findFile` strategy misses the traversal path in a well-formed
vault: the stored paths contain no `..` while every candidate string the
strategies compare against does. -/
theorem findFile_traversal_none (v : Vault) (hv : wfVault v) :
    findFile v traversalPath = none := by
  have hp : findFilePath traversalPath = traversalPath := by decide
  have e1 : obsidianNormalizePath traversalPath = traversalPath := by decide
  have e2 : obsidianNormalizePath (traversalPath ++ ".md".toList)
      = traversalPath ++ ".md".toList := by decide
  have esn : jsToLower (stripMdSuffixCI traversalPath) = traversalPath := by decide
  have hg1 : getAbstractFileByPath v traversalPath = none :=
    getAbstractFileByPath_none v hv traversalPath (by decide)
  have hg2 : getAbstractFileByPath v (traversalPath ++ ".md".toList) = none :=
    getAbstractFileByPath_none v hv _ (by decide)
  have hS3 : v.files.find? (fun f => jsToLower (baseNameOf f.path) = traversalPath) = none := by
    refine List.find?_eq_none.mpr (fun f hf => ?_)
    simp only [decide_eq_true_eq]
    intro heq
    have h1 : dotdot <:+: jsToLower (baseNameOf f.path) := by
      rw [heq]
      decide
    exact hv.1 f hf ((dotdot_toLower_elim h1).trans (baseNameOf_within f.path))
  have hS4 : v.files.find? (fun f =>
      jsIncludes (jsToLower f.path) traversalPath
      ∨ jsToLower f.path = jsToLower traversalPath
      ∨ jsToLower f.path = jsToLower (traversalPath ++ ".md".toList)) = none := by
    refine List.find?_eq_none.mpr (fun f hf => ?_)
    simp only [decide_eq_true_eq]
    rintro (hA | hB | hC)
    · have hinc : traversalPath <:+: jsToLower f.path := by simpa [jsIncludes] using hA
      exact hv.1 f hf (dotdot_toLower_elim
        ((by decide : dotdot <:+: traversalPath).trans hinc))
    · have h1 : dotdot <:+: jsToLower f.path := by
        rw [hB]
        decide
      exact hv.1 f hf (dotdot_toLower_elim h1)
    · have h1 : dotdot <:+: jsToLower f.path := by
        rw [hC]
        decide
      exact hv.1 f hf (dotdot_toLower_elim h1)
  simp only [findFile, hp, e1, e2, esn]
  rw [hg1, hg2, hS3, hS4]
  rfl

theorem except_ok_bind {α β : Type} (a : α) (f : α → Except JStr β) :
    (Except.ok a : Except JStr α) >>= f = f a := rfl

theorem executeTool_eq_of_run {v : Vault} {nm : JStr} {args : Args}
    {t : JStr × List (JStr × Bool)} {r : ToolResult × Vault × List StoreOp}
    (hfind : TOOL_DEFINITIONS.find? (fun x => x.1 = nm) = some t)
    (hreq : t.2.find? (fun p => p.2 && (lookupArg args p.1).isNone) = none)
    (hrun : runTool v nm args = .ok r) :
    executeTool v nm args = r := by
  unfold executeTool
  rw [hfind]
  dsimp only
  rw [hreq]
  dsimp only
  rw [hrun]

theorem renameNote_traversal (v : Vault) (hff : findFile v traversalPath = none) :
    renameNote v traversalArgs = Except.ok (failRes notFoundTraversalMsg v) := by
  simp only [renameNote,
    show getStringArg traversalArgs ("path".toList) [] = Except.ok traversalPath from rfl,
    show getStringArg traversalArgs ("newName".toList) [] = Except.ok ("renamed".toList) from rfl,
    except_ok_bind]
  rw [hff]
  rfl

theorem deleteNote_traversal (v : Vault) (hff : findFile v traversalPath = none) :
    deleteNote v traversalArgs = Except.ok (failRes notFoundTraversalMsg v) := by
  simp only [deleteNote,
    show getStringArg traversalArgs ("path".toList) [] = Except.ok traversalPath from rfl,
    except_ok_bind]
  rw [hff]
  rfl

theorem appendToNote_traversal (v : Vault) (hff : findFile v traversalPath = none) :
    appendToNote v traversalArgs = Except.ok (failRes notFoundTraversalMsg v) := by
  simp only [appendToNote,
    show getStringArg traversalArgs ("path".toList) [] = Except.ok traversalPath from rfl,
    show getStringArg traversalArgs ("content".toList) [] = Except.ok ("x".toList) from rfl,
    except_ok_bind]
  rw [hff]
  rfl

theorem prependToNote_traversal (v : Vault) (hff : findFile v traversalPath = none) :
    prependToNote v traversalArgs = Except.ok (failRes notFoundTraversalMsg v) := by
  simp only [prependToNote,
    show getStringArg traversalArgs ("path".toList) [] = Except.ok traversalPath from rfl,
    show getStringArg traversalArgs ("content".toList) [] = Except.ok ("x".toList) from rfl,
    except_ok_bind]
  rw [hff]
  rfl

theorem getNoteContent_traversal (v : Vault) (hff : findFile v traversalPath = none) :
    getNoteContent v traversalArgs = Except.ok (failRes notFoundTraversalMsg v) := by
  simp only [getNoteContent,
    show getStringArg traversalArgs ("path".toList) [] = Except.ok traversalPath from rfl,
    except_ok_bind]
  rw [hff]
  rfl

theorem addTag_traversal (v : Vault) (hff : findFile v traversalPath = none) :
    addTag v traversalArgs = Except.ok (failRes notFoundTraversalMsg v) := by
  simp only [addTag,
    show getStringArg traversalArgs ("path".toList) [] = Except.ok traversalPath from rfl,
    show getStringArg traversalArgs ("tag".toList) [] = Except.ok ("todo".toList) from rfl,
    except_ok_bind]
  rw [hff]
  rfl

theorem removeTag_traversal (v : Vault) (hff : findFile v traversalPath = none) :
    removeTag v traversalArgs = Except.ok (failRes notFoundTraversalMsg v) := by
  simp only [removeTag,
    show getStringArg traversalArgs ("path".toList) [] = Except.ok traversalPath from rfl,
    show getStringArg traversalArgs ("tag".toList) [] = Except.ok ("todo".toList) from rfl,
    except_ok_bind]
  rw [hff]
  rfl

theorem updateFrontmatter_traversal (v : Vault) (hff : findFile v traversalPath = none) :
    updateFrontmatter v traversalArgs = Except.ok (failRes notFoundTraversalMsg v) := by
  simp only [updateFrontmatter,
    show getStringArg traversalArgs ("path".toList) [] = Except.ok traversalPath from rfl,
    show getStringArg traversalArgs ("property".toList) [] = Except.ok ("status".toList) from rfl,
    show getStringArg traversalArgs ("value".toList) [] = Except.ok ("done".toList) from rfl,
    except_ok_bind]
  rw [hff]
  rfl

theorem openNote_traversal (v : Vault) (hff : findFile v traversalPath = none) :
    openNote v traversalArgs = Except.ok (failRes notFoundTraversalMsg v) := by
  simp only [openNote,
    show getStringArg traversalArgs ("path".toList) [] = Except.ok traversalPath from rfl,
    except_ok_bind]
  rw [hff]
  rfl

theorem moveNote_traversal (v : Vault) (hff : findFile v traversalPath = none) :
    moveNote v traversalMoveArgs = Except.ok (failRes notFoundTraversalMsg v) := by
  simp only [moveNote,
    show getStringArg traversalMoveArgs ("sourcePath".toList) [] = Except.ok traversalPath from rfl,
    show getStringArg traversalMoveArgs ("destinationFolder".toList) []
        = Except.ok ("Archive".toList) from rfl,
    show sanitizePath ("Archive".toList) = Except.ok ("Archive".toList) from rfl,
    show argTruthy (lookupArg traversalMoveArgs ("newName".toList)) = false from rfl,
    except_ok_bind, Bool.false_eq_true, if_false]
  rw [hff]
  rfl

set_option maxRecDepth 8192 in
/-- C2: path-traversal handling, corrected.  Any path containing `..` is
rejected by `sanitizePath`; with the traversal path `../../etc/passwd`,
every path-taking tool run against a well-formed vault returns a failure
result, leaves the vault unchanged and performs no store operation — but
only the sanitizing tools (`create_folder`, `delete_folder`,
`create_note`, `list_folder_contents`) report a path-safety error, while
the `findFile`-based tools report a not-found error.  (The claim's
`/etc/passwd` half is refuted by the counterexample: the leading slash is
silently stripped and the operation proceeds.) -/
theorem toolExecutor_path_safety (v : Vault) (hv : wfVault v) :
    (∀ p : JStr, dotdot <:+: p →
      sanitizePath p = .error ("Invalid path: \"".toList ++ p
        ++ "\" attempts to access files outside the vault".toList))
  ∧ (∀ nm ∈ sanitizingPathTools,
        (executeTool v nm traversalArgs).1.success = false
      ∧ (executeTool v nm traversalArgs).2.1 = v
      ∧ (executeTool v nm traversalArgs).2.2 = []
      ∧ jsIncludes (executeTool v nm traversalArgs).1.message
          ("attempts to access files outside the vault".toList) = true)
  ∧ (∀ nm ∈ lookupPathTools,
        (executeTool v nm traversalArgs).1.success = false
      ∧ (executeTool v nm traversalArgs).2.1 = v
      ∧ (executeTool v nm traversalArgs).2.2 = []
      ∧ (executeTool v nm traversalArgs).1.message = notFoundTraversalMsg)
  ∧ ((executeTool v ("move_note".toList) traversalMoveArgs).1.success = false
   ∧ (executeTool v ("move_note".toList) traversalMoveArgs).2.1 = v
   ∧ (executeTool v ("move_note".toList) traversalMoveArgs).2.2 = []) := by
  have hff := findFile_traversal_none v hv
  refine ⟨fun p hp => sanitizePath_dotdot hp, ?_, ?_, ?_⟩
  · intro nm hnm
    simp only [sanitizingPathTools, List.mem_cons, List.not_mem_nil, or_false] at hnm
    rcases hnm with rfl | rfl | rfl | rfl
    · exact ⟨rfl, rfl, rfl, rfl⟩
    · exact ⟨rfl, rfl, rfl, rfl⟩
    · exact ⟨rfl, rfl, rfl, rfl⟩
    · exact ⟨rfl, rfl, rfl, rfl⟩
  · intro nm hnm
    simp only [lookupPathTools, List.mem_cons, List.not_mem_nil, or_false] at hnm
    rcases hnm with rfl | rfl | rfl | rfl | rfl | rfl | rfl | rfl | rfl
    · rw [@executeTool_eq_of_run v ("rename_note".toList) traversalArgs _ _
        rfl rfl (renameNote_traversal v hff)]
      exact ⟨rfl, rfl, rfl, rfl⟩
    · rw [@executeTool_eq_of_run v ("delete_note".toList) traversalArgs _ _
        rfl rfl (deleteNote_traversal v hff)]
      exact ⟨rfl, rfl, rfl, rfl⟩
    · rw [@executeTool_eq_of_run v ("append_to_note".toList) traversalArgs _ _
        rfl rfl (appendToNote_traversal v hff)]
      exact ⟨rfl, rfl, rfl, rfl⟩
    · rw [@executeTool_eq_of_run v ("prepend_to_note".toList) traversalArgs _ _
        rfl rfl (prependToNote_traversal v hff)]
      exact ⟨rfl, rfl, rfl, rfl⟩
    · rw [@executeTool_eq_of_run v ("get_note_content".toList) traversalArgs _ _
        rfl rfl (getNoteContent_traversal v hff)]
      exact ⟨rfl, rfl, rfl, rfl⟩
    · rw [@executeTool_eq_of_run v ("add_tag".toList) traversalArgs _ _
        rfl rfl (addTag_traversal v hff)]
      exact ⟨rfl, rfl, rfl, rfl⟩
    · rw [@executeTool_eq_of_run v ("remove_tag".toList) traversalArgs _ _
        rfl rfl (removeTag_traversal v hff)]
      exact ⟨rfl, rfl, rfl, rfl⟩
    · rw [@executeTool_eq_of_run v ("update_frontmatter".toList) traversalArgs _ _
        rfl rfl (updateFrontmatter_traversal v hff)]
      exact ⟨rfl, rfl, rfl, rfl⟩
    · rw [@executeTool_eq_of_run v ("open_note".toList) traversalArgs _ _
        rfl rfl (openNote_traversal v hff)]
      exact ⟨rfl, rfl, rfl, rfl⟩
  · rw [@executeTool_eq_of_run v ("move_note".toList) traversalMoveArgs _ _
      rfl rfl (moveNote_traversal v hff)]
    exact ⟨rfl, rfl, rfl⟩

/-- C2 counterexample: the spec also demands failure for `/etc/passwd`,
but `create_folder` on an empty vault silently strips the leading slash,
succeeds, and performs a store operation creating `etc/passwd`. -/
theorem toolExecutor_path_safety_counterexample :
    (executeTool (Vault.mk [] []) ("create_folder".toList)
        [("path".toList, JsArg.str ("/etc/passwd".toList))]).1.success = true
  ∧ (executeTool (Vault.mk [] []) ("create_folder".toList)
        [("path".toList, JsArg.str ("/etc/passwd".toList))]).2.2
      = [StoreOp.createFolder ("etc/passwd".toList)] :=
  ⟨rfl, rfl⟩

/-- C2 witness: the amended theorem applied to a concrete well-formed
vault and the `delete_note` tool. -/
theorem toolExecutor_path_safety_witness :
    wfVault sampleVault
  ∧ (executeTool sampleVault ("delete_note".toList) traversalArgs).1.success = false
  ∧ (executeTool sampleVault ("delete_note".toList) traversalArgs).2.2 = [] :=
  ⟨by decide,
   ((toolExecutor_path_safety sampleVault (by decide)).2.2.1
     ("delete_note".toList) (by decide)).1,
   ((toolExecutor_path_safety sampleVault (by decide)).2.2.1
     ("delete_note".toList) (by decide)).2.2.1⟩

/-- C3: cross-strategy de-duplication bug, evaluated.  Each fenced block
alone yields the call, yet the response containing the same call once as
a ```tool block and once as a ```json block yields ONE entry, not two:
the seen-set is shared across strategies, contradicting the documented
"deduplication only applies within the same parsing method". -/
theorem parseToolCalls_dedup_bug :
    parseToolCalls c3ToolBlock = [c3Call]
  ∧ parseToolCalls c3JsonBlock = [c3Call]
  ∧ parseToolCalls c3Input = [c3Call] :=
  ⟨rfl, rfl, rfl⟩

theorem firstMatchFrom_some {p : JStr → Bool} :
    ∀ {s : JStr} {i : Nat}, firstMatchFrom p s = some i →
      i ≤ s.length ∧ p (s.drop i) = true ∧ ∀ j, j < i → p (s.drop j) = false := by
  intro s
  induction s with
  | nil =>
    intro i h
    simp only [firstMatchFrom] at h
    by_cases hp : p [] = true
    · rw [if_pos hp] at h
      obtain rfl : (0 : Nat) = i := Option.some.inj h
      exact ⟨Nat.le_refl _, hp, fun j hj => absurd hj (Nat.not_lt_zero j)⟩
    · rw [if_neg hp] at h
      exact absurd h (Option.noConfusion)
  | cons c rest ih =>
    intro i h
    simp only [firstMatchFrom] at h
    by_cases hp : p (c :: rest) = true
    · rw [if_pos hp] at h
      obtain rfl : (0 : Nat) = i := Option.some.inj h
      exact ⟨Nat.zero_le _, hp, fun j hj => absurd hj (Nat.not_lt_zero j)⟩
    · rw [if_neg hp] at h
      cases hm : firstMatchFrom p rest with
      | none =>
        rw [hm] at h
        exact absurd h (Option.noConfusion)
      | some i2 =>
        rw [hm] at h
        obtain rfl : i2 + 1 = i := Option.some.inj h
        obtain ⟨h1, h2, h3⟩ := ih hm
        refine ⟨Nat.succ_le_succ h1, h2, ?_⟩
        intro j hj
        cases j with
        | zero => exact Bool.not_eq_true _ ▸ (by simpa using Bool.of_not_eq_true hp)
        | succ j2 => exact h3 j2 (Nat.lt_of_succ_lt_succ hj)

theorem firstMatchFrom_none {p : JStr → Bool} :
    ∀ {s : JStr}, firstMatchFrom p s = none → ∀ j, p (s.drop j) = false := by
  intro s
  induction s with
  | nil =>
    intro h j
    simp only [firstMatchFrom] at h
    by_cases hp : p [] = true
    · rw [if_pos hp] at h
      exact absurd h (Option.noConfusion)
    · simpa [List.drop_nil] using Bool.of_not_eq_true hp
  | cons c rest ih =>
    intro h j
    simp only [firstMatchFrom] at h
    by_cases hp : p (c :: rest) = true
    · rw [if_pos hp] at h
      exact absurd h (Option.noConfusion)
    · rw [if_neg hp] at h
      cases hm : firstMatchFrom p rest with
      | none =>
        cases j with
        | zero => simpa using Bool.of_not_eq_true hp
        | succ j2 => exact ih hm j2
      | some i2 =>
        rw [hm] at h
        exact absurd h (Option.noConfusion)

/-- C6: `removeToolBlocks` (corrected).  The result is the prefix of the
response before the cutoff with newline runs collapsed and ends trimmed,
the cutoff is the least index where one of the two source regexes
matches — a ```tool/```json fence opening on `{` with a later `"tool":`,
or an inline `{"tool": "<name>", "arguments":` shape — and is the whole
length when neither matches.  (The spec's broader notion of "inline JSON
object with a tool key" is refuted by the counterexample: an inline call
without an `"arguments"` member is detected by the parser but never cut.) -/
theorem removeToolBlocks_spec (response : JStr) :
    removeToolBlocks response
      = jsTrim (collapseNewlines (response.take (toolCutoff response)))
  ∧ toolCutoff response ≤ response.length
  ∧ (∀ i, i < toolCutoff response →
        fencedToolMatchAt (response.drop i) = false
      ∧ inlineToolMatchAt (response.drop i) = false)
  ∧ (toolCutoff response = response.length
     ∨ fencedToolMatchAt (response.drop (toolCutoff response)) = true
     ∨ inlineToolMatchAt (response.drop (toolCutoff response)) = true) := by
  refine ⟨rfl, ?_, ?_, ?_⟩
  · simp only [toolCutoff]
    cases hf : firstMatchFrom fencedToolMatchAt response with
    | none =>
      cases hi : firstMatchFrom inlineToolMatchAt response with
      | none => simp
      | some j => exact le_trans (Nat.min_le_right _ _) (firstMatchFrom_some hi).1
    | some i => exact le_trans (Nat.min_le_left _ _) (firstMatchFrom_some hf).1
  · intro i hi2
    simp only [toolCutoff] at hi2
    constructor
    · cases hf : firstMatchFrom fencedToolMatchAt response with
      | none => exact firstMatchFrom_none hf i
      | some k =>
        rw [hf] at hi2
        exact (firstMatchFrom_some hf).2.2 i (lt_of_lt_of_le hi2 (Nat.min_le_left _ _))
    · cases hg : firstMatchFrom inlineToolMatchAt response with
      | none => exact firstMatchFrom_none hg i
      | some k =>
        rw [hg] at hi2
        exact (firstMatchFrom_some hg).2.2 i (lt_of_lt_of_le hi2 (Nat.min_le_right _ _))
  · simp only [toolCutoff]
    cases hf : firstMatchFrom fencedToolMatchAt response with
    | none =>
      cases hi : firstMatchFrom inlineToolMatchAt response with
      | none => exact Or.inl (by simp)
      | some j =>
        have hj := firstMatchFrom_some hi
        rw [Nat.min_eq_right hj.1]
        exact Or.inr (Or.inr hj.2.1)
    | some i =>
      cases hi : firstMatchFrom inlineToolMatchAt response with
      | none =>
        have hk := firstMatchFrom_some hf
        rw [Nat.min_eq_left hk.1]
        exact Or.inr (Or.inl hk.2.1)
      | some j =>
        rcases Nat.le_total i j with hle | hle
        · rw [Nat.min_eq_left hle]
          exact Or.inr (Or.inl (firstMatchFrom_some hf).2.1)
        · rw [Nat.min_eq_right hle]
          exact Or.inr (Or.inr (firstMatchFrom_some hi).2.1)

/-- C6 counterexample: the parser detects the bare inline call
`\x7b"tool": "open_note"\x7d` (no `arguments` member), yet
`removeToolBlocks` keeps the whole response — text at and after a
detected tool invocation is NOT discarded. -/
theorem removeToolBlocks_spec_counterexample :
    parseToolCalls c6Input = [c6Call]
  ∧ removeToolBlocks c6Input = c6Input :=
  ⟨rfl, rfl⟩

/-- C6 witness: the spec theorem applied at the counterexample input and
index 0, whose cutoff is the whole length. -/
theorem removeToolBlocks_spec_witness :
    fencedToolMatchAt (c6Input.drop 0) = false ∧ inlineToolMatchAt (c6Input.drop 0) = false :=
  (removeToolBlocks_spec c6Input).2.2.1 0 (by decide)

end Calcifer
